import Mathlib

/-!
Verification development for the spiggy auction-scanning backend.

The definitions below are shallow embeddings of the Python source:

* `use_key_step`, `use_key_history` — the leaky-bucket rate limiter of
  `backend/controllers/skyblockapi.py` (`use_key`).
* `get_params`, `get_page`, `get_active_auctions` — the snapshot acquirer
  `SkyblockAPI.get_active_auctions` of the same file.
* the NBT byte-level decoder of `backend/parsing/nbtparse.py`
  (`parse_compound` and friends) and the tag-tree extraction layer
  (`extract_identifiers`, `extract_rarity`, ...).
* the aggregation buffers of `backend/controllers/auctionhouse.py`
  (`cache_active_auctions`, `update_active_buffers`) together with the
  flush sink `save_lbin_history` of `backend/database/database.py`.

Python `datetime` values have exact microsecond resolution and are only
ever subtracted and compared by the source, so instants and durations are
modelled as integers in microseconds; `timedelta(minutes=1)` is the
constant `minute_td`.  Python ints are arbitrary precision, hence ℤ; the
few float-valued quantities (prices obtained by true division) are
modelled as exact rationals.
-/

/-- `timedelta(minutes=1)` in microseconds. -/
def minute_td : ℤ := 60000000

/-! ### Rate limiter (`use_key`, skyblockapi.py lines 53-76)

The decorated call pops timestamps older than one minute from the front of
`self.key_calls`, schedules the request for `now` when fewer than `limit`
timestamps remain and for `key_calls[-limit] + minute` otherwise, and
appends the scheduled time.  `use_key_step limit now calls` returns the
scheduled time together with the updated deque; `use_key_history` records
every scheduled timestamp of a run, in order. -/

def use_key_step (limit : ℕ) (now : ℤ) (calls : List ℤ) : ℤ × List ℤ :=
  let calls1 := calls.dropWhile (fun t => decide (now - t > minute_td))
  let sched := if calls1.length < limit then now
               else calls1.getD (calls1.length - limit) 0 + minute_td
  (sched, calls1 ++ [sched])

def use_key_history (limit : ℕ) (calls : List ℤ) : List ℤ → List ℤ
  | [] => []
  | now :: nows =>
      let r := use_key_step limit now calls
      r.1 :: use_key_history limit r.2 nows

/-- The scheduled timestamps of `hist` lying in the half-open one-minute
window `[a, a + 60 s)`. -/
def window_count (a : ℤ) (hist : List ℤ) : ℕ :=
  hist.countP (fun t => decide (a ≤ t ∧ t < a + minute_td))

/-- Spacing invariant of a schedule history: any two recorded timestamps
`limit` positions apart differ by at least one minute. -/
def spaced (limit : ℕ) (l : List ℤ) : Prop :=
  ∀ i : ℕ, i + limit < l.length → l.getD i 0 + minute_td ≤ l.getD (i + limit) 0

/-- Monotonicity (non-decreasing entries) of a schedule history. -/
def mono_le (l : List ℤ) : Prop :=
  ∀ i j : ℕ, i ≤ j → j < l.length → l.getD i 0 ≤ l.getD j 0

/-! ### Snapshot acquisition (`SkyblockAPI.get_active_auctions`,
skyblockapi.py lines 132-217)

An HTTP response is a status code and an optional parsed JSON body
`(lastUpdated, totalPages, auctions)`; `body = none` stands for a body from
which the expected keys cannot be read (`KeyError` / `JSONDecodeError`).
Auction records are opaque at this level and modelled as integers.  One
acquisition attempt sees the response of the page-0 probe, the wall-clock
time after the probe, the response of the second probe issued when the
fetch window was missed, and a response per page.  The environment is a
stream of attempts; attempt `k + 1` is what the world looks like after the
30-second backoff of attempt `k`.  The `asyncio.gather` of the page
requests is modelled left-to-right: the error reported is the one of the
first failing page in page order. -/

structure HttpResp where
  status : ℕ
  body : Option (ℤ × ℕ × List ℤ)
  deriving DecidableEq, Repr

/-- The error classes raised inside `get_active_auctions`:
`ResponseCodeError`, `MalformedResponseError`, `UnexpectedUpdateError`
(backend/exceptions.py). -/
inductive ApiError where
  | responseCode (status : ℕ)
  | malformed
  | unexpectedUpdate
  deriving DecidableEq, Repr

structure Attempt where
  probe : HttpResp
  now : ℤ
  reProbe : HttpResp
  pages : ℕ → HttpResp

structure CacheCfg where
  minDelay : ℤ
  maxDelay : ℤ

/-- `get_params` (lines 144-155): read `(totalPages, lastUpdated)` from the
page-0 response; non-200 statuses raise `ResponseCodeError`, unreadable
bodies raise `MalformedResponseError`. -/
def get_params (r : HttpResp) : Except ApiError (ℕ × ℤ) :=
  if r.status ≠ 200 then .error (.responseCode r.status)
  else match r.body with
    | none => .error .malformed
    | some (t, tp, _) => .ok (tp, t)

/-- `get_page` (lines 184-203): 404 raises `UnexpectedUpdateError`, other
non-200 statuses raise `ResponseCodeError`, unreadable bodies raise
`MalformedResponseError`, and a page whose `lastUpdated` differs from the
probed `expected_time` raises `UnexpectedUpdateError`; otherwise the page's
`auctions` list is returned. -/
def get_page (expected : ℤ) (r : HttpResp) : Except ApiError (List ℤ) :=
  if r.status = 404 then .error .unexpectedUpdate
  else if r.status ≠ 200 then .error (.responseCode r.status)
  else match r.body with
    | none => .error .malformed
    | some (t, _, au) =>
        if t ≠ expected then .error .unexpectedUpdate else .ok au

/-- The alignment step (lines 157-177).  When `now` is past the fetch
window `[T + minDelay, T + maxDelay]` the coroutine sleeps and probes a
second time, rebinding `(page_count, expected_time)`; when `now` is early
it only sleeps.  Sleeping has no observable effect in this model. -/
def align_params (cfg : CacheCfg) (a : Attempt) (p : ℕ × ℤ) :
    Except ApiError (ℕ × ℤ) :=
  if a.now > p.2 + cfg.maxDelay then get_params a.reProbe else .ok p

/-- The `asyncio.gather` of the page request coroutines (line 209),
modelled left-to-right over the page numbers: all pages succeed and their
auction lists are collected in page order, or the first failing page's
error is reported.  (The real `gather` reports whichever task raises
first in time; which *class* of error wins a race between two failing
pages is therefore nondeterministic in the source, but whether some error
is raised, and the success value, are not.) -/
def gather_pages (f : ℕ → Except ApiError (List ℤ)) :
    List ℕ → Except ApiError (List (List ℤ))
  | [] => .ok []
  | p :: ps =>
      match f p with
      | .error e => .error e
      | .ok au =>
          match gather_pages f ps with
          | .error e => .error e
          | .ok rest => .ok (au :: rest)

/-- `get_active_auctions` (lines 132-217) over the attempt stream `env`,
starting at attempt `k` with positional arguments `args` (the page
numbers; `[]` on the external call, matching the empty `*args`, and an
empty list is falsy, so `list(args) or range(page_count)` recomputes the
range exactly when `args` is empty).  `fuel` bounds the number of attempts
modelled; `none` means the fuel ran out with the coroutine still retrying.
On `UnexpectedUpdateError` from the gathered page requests the coroutine
sleeps 30 s and retries itself with the *same* page numbers
(`return await self.get_active_auctions(*page_numbers)`); every other
error propagates to the caller (`except UnexpectedUpdateError` is the only
handler, and both probes run outside the `try`). -/
def get_active_auctions (cfg : CacheCfg) (env : ℕ → Attempt) :
    ℕ → ℕ → List ℕ → Option (Except ApiError (ℤ × List ℤ))
  | 0, _, _ => none
  | fuel + 1, k, args =>
      let a := env k
      match get_params a.probe with
      | .error e => some (.error e)
      | .ok p =>
          match align_params cfg a p with
          | .error e => some (.error e)
          | .ok q =>
              let pageNumbers := if args.isEmpty then List.range q.1 else args
              match gather_pages (fun pg => get_page q.2 (a.pages pg))
                  pageNumbers with
              | .ok results => some (.ok (q.2, results.flatten))
              | .error .unexpectedUpdate =>
                  get_active_auctions cfg env fuel (k + 1) pageNumbers
              | .error e => some (.error e)

/-! ### Auction-house aggregation buffers
(`AuctionHouse`, backend/controllers/auctionhouse.py, and
`save_lbin_history`, backend/database/database.py)

Python `dict` / `defaultdict` values are modelled as association lists in
insertion order with unique keys: assignment to an existing key replaces
its value in place, assignment to a fresh key appends.  An item here is the
already-extracted record carried by a parsed `ActiveAuction`; the buffers
only read its `(item_id, rarity)` pair and its stack size. -/

structure SbItem where
  item_id : String
  rarity : String
  stack_size : ℤ
  deriving DecidableEq, Repr

/-- One parsed active auction as consumed by `update_active_buffers`.
`is_bin` and `price` (the `highest_bid_amount` field) are set by
`ActiveAuction.__init__` (models/auction.py lines 62-74).

`start_time` and `unit_price` are used by
`AuctionHouse.update_active_buffers` (auctionhouse.py lines 233-239) but
no revision under src/ defines them.  Modelled from the spec:
`start_time` is the listing's start instant — §4.5 filters on the
"elapsed listed duration at snapshot time"; `unit_price` is §3's derived
field `unit_price = price / item.stack_size` (Python true division,
hence an exact rational here). -/
structure ActiveAuction where
  is_bin : Bool
  price : ℚ
  start_time : ℤ
  item : SbItem
  deriving DecidableEq, Repr

/-- Modelled from the spec: `unit_price = price / item.stack_size` (§3).
The attribute is referenced by the source but defined in no file under
src/. -/
def unit_price (a : ActiveAuction) : ℚ := a.price / (a.item.stack_size : ℚ)

/-- Association-list read (Python `d[k]` / `d.get(k)`). -/
def alist_get {K α : Type} [DecidableEq K] : List (K × α) → K → Option α
  | [], _ => none
  | (k', v) :: t, k => if k' = k then some v else alist_get t k

/-- Association-list write (Python `d[k] = v`): replace in place when the
key exists, append otherwise. -/
def alist_set {K α : Type} [DecidableEq K] : List (K × α) → K → α → List (K × α)
  | [], k, v => [(k, v)]
  | (k', v') :: t, k, v =>
      if k' = k then (k, v) :: t else (k', v') :: alist_set t k v

/-- The `for auction in active_auctions` loop of `update_active_buffers`
(auctionhouse.py lines 230-239): bump `active_occurrences[key]`, and fold
the qualifying listings (BIN with at least one minute of elapsed listed
duration at `last_update`) into the `current_lbin` running-minimum dict.
Python's `min` returns its first argument on ties, as does `min` here. -/
def active_scan (last_update : ℤ) :
    List ((String × String) × ℕ) × List ((String × String) × ℚ) →
    List ActiveAuction →
    List ((String × String) × ℕ) × List ((String × String) × ℚ)
  | st, [] => st
  | (occ, cur), a :: rest =>
      let key := (a.item.item_id, a.item.rarity)
      let occ1 := alist_set occ key (((alist_get occ key).getD 0) + 1)
      let cur1 :=
        if a.is_bin && decide (last_update - a.start_time ≥ minute_td) then
          match alist_get cur key with
          | none => alist_set cur key (unit_price a)
          | some v => alist_set cur key (min v (unit_price a))
        else cur
      active_scan last_update (occ1, cur1) rest

/-- The buffer-insertion loop of `update_active_buffers` (lines 242-243):
`self.lbin_buffer[key].append(price)` for each `current_lbin` entry
(`lbin_buffer` is a `defaultdict(list)`). -/
def buffer_append (buf : List ((String × String) × List ℚ)) :
    List ((String × String) × ℚ) → List ((String × String) × List ℚ)
  | [] => buf
  | (k, p) :: rest =>
      buffer_append (alist_set buf k (((alist_get buf k).getD []) ++ [p])) rest

/-- `statistics.mean` over the exact rationals modelling the floats.
(`statistics.mean` raises on an empty list; buffered sample lists are
nonempty by construction, every entry being created by an append.) -/
def rat_mean (l : List ℚ) : ℚ := l.sum / (l.length : ℚ)

/-- The rows written by `save_lbin_history` (database/database.py lines
61-73): one `(item_id, rarity, statistics.mean(prices))` row per buffer
entry, in buffer order.  (The table row also carries the wall-clock commit
time, which no claim mentions.  Note the latent caller/callee mismatch:
`update_active_buffers` passes `self.lbin_buffer` where the signature
expects the `AuctionHouse` instance, so these rows model the write the
buffer contents determine.) -/
def save_lbin_rows (buf : List ((String × String) × List ℚ)) :
    List ((String × String) × ℚ) :=
  buf.map (fun kv => (kv.1, rat_mean kv.2))

/-- The mutable state of an `AuctionHouse` instance, restricted to the
fields the active-auction path touches, plus a ghost log `flushes` of the
payload rows of every emitted flush event. -/
structure AHState where
  aa_last_update : Option ℤ
  active_auctions : List ActiveAuction
  aa_cache_count : ℕ
  active_occurrences : List ((String × String) × ℕ)
  lbin_buffer : List ((String × String) × List ℚ)
  flushes : List (List ((String × String) × ℚ))

def init_ah : AHState :=
  { aa_last_update := none, active_auctions := [], aa_cache_count := 0,
    active_occurrences := [], lbin_buffer := [], flushes := [] }

/-- `AuctionHouse.update_active_buffers` (auctionhouse.py lines 212-254):
scan the snapshot, append each key's current lowest BIN to its sample
list, then — when the cache counter has reached `AA_CLEAR_THRESHOLD` —
commit the buffer through `save_lbin_history` and clear the counter, the
occurrence map and the buffer. -/
def update_active_buffers (threshold : ℕ) (st : AHState) (last_update : ℤ)
    (active_auctions : List ActiveAuction) : AHState :=
  let scan := active_scan last_update (st.active_occurrences, [])
    active_auctions
  let buf := buffer_append st.lbin_buffer scan.2
  if st.aa_cache_count = threshold then
    { st with
      active_occurrences := ([]), lbin_buffer := ([]),
      aa_cache_count := 0, flushes := st.flushes ++ [save_lbin_rows buf] }
  else
    { st with active_occurrences := scan.1, lbin_buffer := buf }

/-- The accepted-snapshot path of `AuctionHouse.cache_active_auctions`
(lines 96-131): store the snapshot and its timestamp, bump
`aa_cache_count`, and notify the handlers — `update_active_buffers` with
`(last_update, active_auctions)` being the active-auction buffer handler
(its registration by the bot wiring is outside src/; §4.5 of the spec has
the buffer consume every accepted snapshot). -/
def accept_snapshot (threshold : ℕ) (st : AHState) (last_update : ℤ)
    (acts : List ActiveAuction) : AHState :=
  update_active_buffers threshold
    { st with
      active_auctions := acts, aa_last_update := some last_update,
      aa_cache_count := st.aa_cache_count + 1 }
    last_update acts

/-- `AuctionHouse.cache_active_auctions` (lines 80-131): fetch the
snapshot; when the feed-reported timestamp equals the one already cached,
return at once, leaving every instance variable untouched; otherwise
parse, drop items without an ASCII base name, and accept.  `fetched` is
the `(last_update, res)` pair returned by the API wrapper, already parsed
to records; `has_ascii` stands for `Item.has_ascii_base_name`, which no
file under src/ defines. -/
def cache_active_auctions (threshold : ℕ)
    (has_ascii : ActiveAuction → Bool) (st : AHState)
    (fetched : ℤ × List ActiveAuction) : AHState :=
  if some fetched.1 = st.aa_last_update then st
  else accept_snapshot threshold st fetched.1 (fetched.2.filter has_ascii)

/-- A run of successive accepted snapshots. -/
def run_snapshots (threshold : ℕ) (st : AHState)
    (snaps : List (ℤ × List ActiveAuction)) : AHState :=
  snaps.foldl (fun s p => accept_snapshot threshold s p.1 p.2) st

/-- The `current_lbin` dict computed from one snapshot. -/
def current_lbin (last_update : ℤ) (acts : List ActiveAuction) :
    List ((String × String) × ℚ) :=
  (active_scan last_update ([], []) acts).2

/-- A key's buffered sample list (`defaultdict(list)` read). -/
def buf_samples (buf : List ((String × String) × List ℚ))
    (k : String × String) : List ℚ :=
  (alist_get buf k).getD []

/-- Total number of buffered samples across all keys. -/
def total_samples (buf : List ((String × String) × List ℚ)) : ℕ :=
  (buf.map (fun kv => kv.2.length)).sum

/-- A listing qualifies for lowest-BIN tracking: flagged buy-now and
listed for at least one minute at snapshot time (lines 233-234). -/
def qualifying (last_update : ℤ) (a : ActiveAuction) : Bool :=
  a.is_bin && decide (last_update - a.start_time ≥ minute_td)

/-- Running minimum of a list of prices (`none` when empty). -/
def list_min : List ℚ → Option ℚ
  | [] => none
  | p :: rest =>
      match list_min rest with
      | none => some p
      | some m => some (min p m)

/-- The minimum qualifying unit price of a snapshot for one key. -/
def lbin_min (last_update : ℤ) (acts : List ActiveAuction)
    (k : String × String) : Option ℚ :=
  list_min ((acts.filter (fun a =>
    qualifying last_update a &&
      decide ((a.item.item_id, a.item.rarity) = k))).map unit_price)

/-- Combine a running minimum with the minimum of later samples. -/
def opt_min : Option ℚ → Option ℚ → Option ℚ
  | none, o => o
  | some v, none => some v
  | some v, some m => some (min v m)

/-! ### NBT byte-level decoder (backend/parsing/nbtparse.py lines 21-169)

The decoder reads from a `BytesIO`; `read(n)` returns *up to* `n` bytes
and returns fewer (possibly zero) at end of input, and
`int.from_bytes(b'')` is `0`.  The stream is the list of byte values
(`0..255`) after the base64/gzip envelope of `deserialize` has been
reversed (the envelope itself is third-party codec work and not part of
the tag decoder).  UTF-8 decoding of name/string payloads is kept as the
raw byte sequence: the source calls `.decode('utf-8')`, whose
invalid-encoding failure mode is orthogonal to every claim here. -/

/-- `int.from_bytes(bs, byteorder='big', signed=False)`. -/
def be_unsigned (bs : List ℕ) : ℤ :=
  bs.foldl (fun a b => a * 256 + (b : ℤ)) 0

/-- `int.from_bytes(bs, byteorder='big', signed=True)`; on the empty
string it is `0`, which is how every truncated fixed-width read of the
decoder degrades. -/
def be_signed (bs : List ℕ) : ℤ :=
  if bs.length = 0 then 0
  else if be_unsigned bs < 2 ^ (8 * bs.length - 1) then be_unsigned bs
  else be_unsigned bs - 2 ^ (8 * bs.length)

/-- `_pop_byte` (lines 21-23). -/
def pop_byte (s : List ℕ) : ℤ × List ℕ := (be_signed (s.take 1), s.drop 1)

/-- `_pop_ushort` (lines 26-28). -/
def pop_ushort (s : List ℕ) : ℤ × List ℕ := (be_unsigned (s.take 2), s.drop 2)

/-- `_pop_string` (lines 46-48): a 2-byte unsigned length, then that many
bytes (fewer when the stream ends first). -/
def pop_string (s : List ℕ) : List ℕ × List ℕ :=
  let r := pop_ushort s
  (r.2.take r.1.toNat, r.2.drop r.1.toNat)

/-- `[_pop_*(bytes_f) for _ in range(n)]` for a fixed-width signed scalar:
exactly `n` list elements, each reading up to `width` bytes (`0` once the
stream is exhausted). -/
def read_scalars (width : ℕ) : ℕ → List ℕ → List ℤ × List ℕ
  | 0, s => ([], s)
  | n + 1, s =>
      let r := read_scalars width n (s.drop width)
      (be_signed (s.take width) :: r.1, r.2)

/-- A decoded tag value.  `flt`/`dbl` carry the raw big-endian payload
word: `struct.unpack` produces an IEEE value (in fact a 1-tuple) that no
later code path consumes, so the bits themselves are kept. -/
inductive RawVal where
  | byte (n : ℤ)
  | short (n : ℤ)
  | int (n : ℤ)
  | long (n : ℤ)
  | flt (bits : ℤ)
  | dbl (bits : ℤ)
  | bytearr (l : List ℤ)
  | str (bs : List ℕ)
  | lst (elems : List (List ℕ × RawVal))
  | compound (entries : List (List ℕ × RawVal))
  | intarr (l : List ℤ)
  | longarr (l : List ℤ)

/-- Failure modes of the decoder: `PARSERS[t]` with `t ∉ [-13, 12]` raises
`IndexError`; `PARSERS[0]` (and `PARSERS[-13]`) is `None` and calling it
raises `TypeError`; `struct.unpack` with a short buffer raises
`struct.error`.  `fuelOut` is the model artefact for exhausted fuel. -/
inductive NbtErr where
  | indexError
  | typeError
  | structError
  | fuelOut
  deriving DecidableEq, Repr

/-- Python list indexing `PARSERS[t]` on the 13-entry parser table:
`0 ≤ t ≤ 12` indexes directly, `-13 ≤ t < 0` wraps to `t + 13`, anything
else raises `IndexError`. -/
def parsers_index (t : ℤ) : Option ℕ :=
  if 0 ≤ t ∧ t < 13 then some t.toNat
  else if -13 ≤ t ∧ t < 0 then some (t + 13).toNat
  else none

/-- `ret[tag.name] = tag.value`: dict assignment, replacing in place. -/
def dict_insert (m : List (List ℕ × RawVal)) (k : List ℕ) (v : RawVal) :
    List (List ℕ × RawVal) :=
  alist_set m k v

/-- The jobs of the mutually recursive parsers, folded into one
fuel-indexed function so that evaluation stays purely structural:
`payload idx readName` is `PARSERS[idx](bytes_f, read_name)` for the
resolved index `idx ∈ [1, 12]`; `listElems ct n` is the element loop of
`parse_list` (lines 124-126) with `n` iterations left; `entries acc` is
the `while tag_type != 0` loop of `parse_compound` (lines 133-137) with
the dict built so far. -/
inductive PJob where
  | payload (idx : ℕ) (readName : Bool)
  | listElems (ct : ℤ) (n : ℕ)
  | entries (acc : List (List ℕ × RawVal))

/-- Results: a single named tag, or the element/entry list of a loop. -/
inductive PRes where
  | tag (t : List ℕ × RawVal)
  | tags (l : List (List ℕ × RawVal))

/-- The recursive-descent decoder (`parse_byte` .. `parse_long_array`,
lines 78-169). -/
def parse_run : ℕ → PJob → List ℕ → Except NbtErr (PRes × List ℕ)
  | 0, _, _ => .error .fuelOut
  | fuel + 1, .payload idx readName, s =>
      let nr := if readName then pop_string s else ([], s)
      let name := nr.1
      let s := nr.2
      match idx with
      | 1 => let r := pop_byte s; .ok (.tag (name, .byte r.1), r.2)
      | 2 => .ok (.tag (name, .short (be_signed (s.take 2))), s.drop 2)
      | 3 => .ok (.tag (name, .int (be_signed (s.take 4))), s.drop 4)
      | 4 => .ok (.tag (name, .long (be_signed (s.take 8))), s.drop 8)
      | 5 =>
          if (s.take 4).length < 4 then .error .structError
          else .ok (.tag (name, .flt (be_unsigned (s.take 4))), s.drop 4)
      | 6 =>
          if (s.take 8).length < 8 then .error .structError
          else .ok (.tag (name, .dbl (be_unsigned (s.take 8))), s.drop 8)
      | 7 =>
          let n := (be_signed (s.take 4)).toNat
          let r := read_scalars 1 n (s.drop 4)
          .ok (.tag (name, .bytearr r.1), r.2)
      | 8 => let r := pop_string s; .ok (.tag (name, .str r.1), r.2)
      | 9 =>
          let ct := be_signed (s.take 1)
          let n := (be_signed ((s.drop 1).take 4)).toNat
          match parse_run fuel (.listElems ct n) ((s.drop 1).drop 4) with
          | .ok (.tags elems, s2) => .ok (.tag (name, .lst elems), s2)
          | .ok (.tag _, _) => .error .fuelOut
          | .error e => .error e
      | 10 =>
          match parse_run fuel (.entries []) s with
          | .ok (.tags entries, s2) => .ok (.tag (name, .compound entries), s2)
          | .ok (.tag _, _) => .error .fuelOut
          | .error e => .error e
      | 11 =>
          let n := (be_signed (s.take 4)).toNat
          let r := read_scalars 4 n (s.drop 4)
          .ok (.tag (name, .intarr r.1), r.2)
      | 12 =>
          let n := (be_signed (s.take 4)).toNat
          let r := read_scalars 8 n (s.drop 4)
          .ok (.tag (name, .longarr r.1), r.2)
      | _ => .error .indexError
  | fuel + 1, .listElems ct n, s =>
      match n with
      | 0 => .ok (.tags [], s)
      | m + 1 =>
          match parsers_index ct with
          | none => .error .indexError
          | some 0 => .error .typeError
          | some idx =>
              match parse_run fuel (.payload idx false) s with
              | .ok (.tag t, s2) =>
                  match parse_run fuel (.listElems ct m) s2 with
                  | .ok (.tags rest, s3) => .ok (.tags (t :: rest), s3)
                  | .ok (.tag _, _) => .error .fuelOut
                  | .error e => .error e
              | .ok (.tags _, _) => .error .fuelOut
              | .error e => .error e
  | fuel + 1, .entries acc, s =>
      let r := pop_byte s
      if r.1 = 0 then .ok (.tags acc, r.2)
      else
        match parsers_index r.1 with
        | none => .error .indexError
        | some 0 => .error .typeError
        | some idx =>
            match parse_run fuel (.payload idx true) r.2 with
            | .ok (.tag t, s2) =>
                parse_run fuel (.entries (dict_insert acc t.1 t.2)) s2
            | .ok (.tags _, _) => .error .fuelOut
            | .error e => .error e

/-- `parse_compound` (lines 130-138) proper. -/
def parse_compound (fuel : ℕ) (readName : Bool) (s : List ℕ) :
    Except NbtErr (PRes × List ℕ) :=
  parse_run fuel (.payload 10 readName) s

/-- `deserialize` (lines 183-195) after the base64/gzip envelope: pop and
discard the outer compound type indicator, then parse a named compound. -/
def deserialize_tag (fuel : ℕ) (s : List ℕ) :
    Except NbtErr (PRes × List ℕ) :=
  parse_compound fuel true (pop_byte s).2

/-! ### Tag-tree extraction (nbtparse.py lines 172-468, models/item.py)

Extraction works on decoded trees, dynamically typed exactly as in the
source: a `Compound` becomes a Python `dict` keyed by strings, a `List`
holds the `NbtTag` objects that `parse_list` appends, and the root is an
`NbtTag`.  `PyVal` is the value universe these functions traverse;
`PyErr` the exceptions they can raise. -/

inductive PyVal where
  | int (n : ℤ)
  | str (s : String)
  | flt (x : ℚ)
  | lst (elems : List PyVal)
  | dict (entries : List (String × PyVal))
  | tagObj (name : String) (val : PyVal)

inductive PyErr where
  | keyError
  | indexError
  | typeError
  | attrError
  | valueError
  deriving DecidableEq, Repr

/-- Keys accepted by `__getitem__` in the source: strings and ints. -/
inductive PyKey where
  | s (k : String)
  | i (n : ℤ)
  deriving DecidableEq, Repr

/-- Association-list lookup for string-keyed dict entries. -/
def sdict_get {α : Type} : List (String × α) → String → Option α
  | [], _ => none
  | (k', v) :: t, k => if k' = k then some v else sdict_get t k

/-- `v[k]`: dict lookup (`KeyError` when missing, and our dicts are
string-keyed so an int subscript misses), Python list indexing with
negative-index wrap-around (`IndexError` out of range), and delegation
through `NbtTag.__getitem__` (nbtparse.py lines 68-75), which subscripts
the tag's `value`. -/
def py_getitem : PyVal → PyKey → Except PyErr PyVal
  | .dict m, .s k =>
      match sdict_get m k with
      | some v => .ok v
      | none => .error .keyError
  | .dict _, .i _ => .error .keyError
  | .lst l, .i n =>
      let j := if n < 0 then n + l.length else n
      if h : 0 ≤ j ∧ j.toNat < l.length then .ok (l.get ⟨j.toNat, h.2⟩)
      else .error .indexError
  | .lst _, .s _ => .error .typeError
  | .tagObj _ v, k => py_getitem v k
  | _, _ => .error .typeError

/-- `tag.value` attribute access: defined on `NbtTag` objects only. -/
def py_value : PyVal → Except PyErr PyVal
  | .tagObj _ v => .ok v
  | _ => .error .attrError

/-- `d.get(k, default)`: only dicts have `.get`. -/
def py_dict_get (v : PyVal) (k : String) (dflt : PyVal) :
    Except PyErr PyVal :=
  match v with
  | .dict m => .ok ((sdict_get m k).getD dflt)
  | _ => .error .attrError

/-- `d.get(k)` with the implicit `None` default. -/
def py_dict_get_opt (v : PyVal) (k : String) :
    Except PyErr (Option PyVal) :=
  match v with
  | .dict m => .ok (sdict_get m k)
  | _ => .error .attrError

/-- `k in d` as used on the ExtraAttributes compound (a dict). -/
def py_contains (v : PyVal) (k : String) : Except PyErr Bool :=
  match v with
  | .dict m => .ok (sdict_get m k).isSome
  | _ => .error .typeError

/-- `d.items()`, in insertion order. -/
def py_items (v : PyVal) : Except PyErr (List (String × PyVal)) :=
  match v with
  | .dict m => .ok m
  | _ => .error .attrError

def as_str : PyVal → Except PyErr String
  | .str s => .ok s
  | _ => .error .typeError

/-- Python truthiness for the values above (`NbtTag` instances define
neither `__bool__` nor `__len__`, hence are always truthy; `-0.0` shares
the rational `0` with `0.0` and both are falsy). -/
def py_truthy : PyVal → Bool
  | .int n => decide (¬ n = 0)
  | .str s => decide (¬ s = "")
  | .flt x => decide (¬ x = 0)
  | .lst l => ¬ l.isEmpty
  | .dict m => ¬ m.isEmpty
  | .tagObj _ _ => true

/-- `f'{v}'` rendering, to the extent the source exercises it: the
interpolated values in `extract_identifiers` are enchant/rune levels and
pet types (ints or strings in the feed) or `None` for a missing pet type
(handled by the caller).  Floats and containers never reach an f-string
in any claim; their repr is left as a fixed placeholder. -/
def py_str : PyVal → String
  | .int n => toString n
  | .str s => s
  | _ => "<repr>"

/-- `'§ka|§.'` (regex alternation, leftmost match, `'§ka'` preferred at
equal positions): drop `§ka` triples and `§c` pairs; a final lone `§`
matches neither alternative and is kept. -/
def strip_style : List Char → List Char
  | [] => []
  | c :: rest =>
      if c = '§' then
        match rest with
        | 'k' :: 'a' :: r2 => strip_style r2
        | _ :: r2 => strip_style r2
        | [] => [c]
      else c :: strip_style rest

/-- Python `str.strip()`. -/
def py_strip (cs : List Char) : List Char :=
  ((cs.dropWhile Char.isWhitespace).reverse.dropWhile Char.isWhitespace).reverse

/-- `_without_nbt_style` (lines 172-180). -/
def without_nbt_style (s : String) : String :=
  String.mk (py_strip (strip_style s.data))

/-- `pat` is an initial run of `s` (Python `str.startswith`). -/
def chars_le : List Char → List Char → Bool
  | [], _ => true
  | _ :: _, [] => false
  | p :: ps, c :: cs => p = c && chars_le ps cs

def py_startswith (s pat : String) : Bool := chars_le pat.data s.data

def py_endswith (s pat : String) : Bool :=
  chars_le pat.data.reverse s.data.reverse

/-- Python `str.removeprefix` as used on the `STARRED_` fragment marker. -/
def drop_leading (s pat : String) : String :=
  if py_startswith s pat then String.mk (s.data.drop pat.data.length) else s

/-- Python `str.upper()` (the identifiers handled are ASCII). -/
def py_upper (s : String) : String := String.mk (s.data.map Char.toUpper)

/-- Python `str.lower()` on a single char via `Char.toLower`, and
`str.title()`: the first letter of every alphabetic run is upper-cased,
the rest lower-cased, with any non-letter (digits, `_`) restarting a
run. -/
def title_chars : Bool → List Char → List Char
  | _, [] => []
  | prev, c :: rest =>
      if c.isAlpha then
        (if prev then c.toLower else c.toUpper) :: title_chars true rest
      else c :: title_chars false rest

def py_title (s : String) : String := String.mk (title_chars false s.data)

/-- `str.replace(a, b)` for single characters (`.replace('_', ' ')`). -/
def py_replace (s : String) (a b : Char) : String :=
  String.mk (s.data.map (fun c => if c = a then b else c))

/-- `name.split(' ', 1)[-1]`: everything after the first space, or the
whole string when there is none. -/
def after_first_space (s : String) : String :=
  let pre := s.data.takeWhile (fun c => ¬ c = ' ')
  if pre.length = s.data.length then s
  else String.mk (s.data.drop (pre.length + 1))

/-- `name.rsplit(' ', 1)[0]`: everything before the last space, or the
whole string when there is none. -/
def before_last_space (s : String) : String :=
  let post := s.data.reverse.takeWhile (fun c => ¬ c = ' ')
  if post.length = s.data.length then s
  else String.mk ((s.data.reverse.drop (post.length + 1)).reverse)

/-- `str.split()` with no argument: whitespace-separated words, empties
dropped. -/
def split_ws_aux : List Char → List Char → List String
  | acc, [] => if acc.isEmpty then [] else [String.mk acc.reverse]
  | acc, c :: rest =>
      if c.isWhitespace then
        if acc.isEmpty then split_ws_aux [] rest
        else String.mk acc.reverse :: split_ws_aux [] rest
      else split_ws_aux (c :: acc) rest

def py_split_ws (s : String) : List String := split_ws_aux [] s.data

/-- `v == 'LITERAL'` for a dynamically typed `v`: true only for an equal
string (Python `==` across types is `False`). -/
def py_eq_str (v : PyVal) (t : String) : Bool :=
  match v with
  | .str s => s = t
  | _ => false

/-- Modelled from the spec: `constants.RARITIES` lives in
`backend/constants.py`, which is not under src/.  §3 fixes an ordered
rarity set with an `UNKNOWN` sentinel; the per-rarity count columns of
`save_item_info` (backend/database/database.py lines 187-198) spell the
set out, and it is reproduced here in that order. -/
def RARITIES : List String :=
  ["COMMON", "UNCOMMON", "RARE", "EPIC", "LEGENDARY", "MYTHIC", "SUPREME",
   "SPECIAL", "VERY_SPECIAL", "UNKNOWN"]

/-- Modelled from the spec: `REFORGE_EXCEPTIONS`
(`parsing/exceptions/reforges.json`) is not under src/.  §4.2 says reforge
removal "maps through an exceptions table because not all items drop their
leading word cleanly"; the table is consulted only for the display names
it lists, none of which occurs in any claim settled here, so it is
modelled with no entries. -/
def REFORGE_EXCEPTIONS : List (String × String) := []

/-- Modelled from the spec: `ENCHANT_EXCEPTIONS`
(`parsing/exceptions/enchants.json`) is not under src/.  §4.2 describes it
as "stripping an 'ultimate' prefix except for two listed exceptions", and
the equivalent in-source rule (`get_book_id_basename`,
backend/parsing/styling.py) strips the first 9 characters of an
`ultimate`-prefixed code unless it is in `{ultimate_wise, ultimate_jerry}`.
`ENCHANT_EXCEPTIONS.get(e, e)` is modelled accordingly. -/
def enchant_exceptions_get (e : String) : String :=
  if py_startswith e "ultimate" && ¬ (e = "ultimate_wise")
      && ¬ (e = "ultimate_jerry") then
    String.mk (e.data.drop 9)
  else e

/-! #### A minimal model of `json.loads` for the `petInfo` payload

`_get_pet_attrs` parses the JSON text stored under
`ExtraAttributes.petInfo` (or the default `'\x7b\x7d'`).  The model
accepts a flat JSON object with string keys and string/integer values —
the only shapes any settled claim exercises — and reports
`json.JSONDecodeError` (as `valueError`) on everything else. -/

def json_ws (cs : List Char) : List Char := cs.dropWhile Char.isWhitespace

/-- A JSON string literal without escape sequences. -/
def json_string (cs : List Char) : Option (String × List Char) :=
  match cs with
  | '"' :: rest =>
      let body := rest.takeWhile (fun c => ¬ c = '"')
      match rest.drop body.length with
      | '"' :: r2 => some (String.mk body, r2)
      | _ => none
  | _ => none

def json_nat (cs : List Char) : Option (ℕ × List Char) :=
  let ds := cs.takeWhile Char.isDigit
  if ds.isEmpty then none
  else some (ds.foldl (fun a c => a * 10 + (c.toNat - 48)) 0,
             cs.drop ds.length)

def json_value (cs : List Char) : Option (PyVal × List Char) :=
  match json_string cs with
  | some (s, r) => some (.str s, r)
  | none =>
      match cs with
      | '-' :: r =>
          match json_nat r with
          | some (n, r2) => some (.int (-(n : ℤ)), r2)
          | none => none
      | _ =>
          match json_nat cs with
          | some (n, r2) => some (.int (n : ℤ), r2)
          | none => none

/-- The `"key": value` pair list of a flat object; `fuel` only bounds the
recursion and exceeds any input length in use. -/
def json_pairs (fuel : ℕ) (cs : List Char) :
    Option (List (String × PyVal) × List Char) :=
  match fuel with
  | 0 => none
  | fuel + 1 =>
      match json_string (json_ws cs) with
      | none => none
      | some (k, r1) =>
          match json_ws r1 with
          | ':' :: r2 =>
              match json_value (json_ws r2) with
              | none => none
              | some (v, r3) =>
                  match json_ws r3 with
                  | ',' :: r4 =>
                      match json_pairs fuel r4 with
                      | some (rest, r5) => some ((k, v) :: rest, r5)
                      | none => none
                  | r4 => some ([(k, v)], r4)
          | _ => none

def json_loads_flat (s : String) : Except PyErr (List (String × PyVal)) :=
  match json_ws s.data with
  | '\x7b' :: r1 =>
      match json_ws r1 with
      | '\x7d' :: r2 =>
          if (json_ws r2).isEmpty then .ok [] else .error .valueError
      | _ =>
          match json_pairs (s.length + 1) r1 with
          | some (prs, r2) =>
              match json_ws r2 with
              | '\x7d' :: r3 =>
                  if (json_ws r3).isEmpty then .ok prs
                  else .error .valueError
              | _ => .error .valueError
          | none => .error .valueError
  | _ => .error .valueError

/-! #### The extraction functions (nbtparse.py lines 198-468) -/

/-- `_get_extra_attrs` (lines 198-206):
`nbt['i'][0]['tag']['ExtraAttributes']`. -/
def get_extra_attrs (nbt : PyVal) : Except PyErr PyVal := do
  let a ← py_getitem nbt (.s "i")
  let b ← py_getitem a (.i 0)
  let c ← py_getitem b (.s "tag")
  py_getitem c (.s "ExtraAttributes")

/-- `_get_pet_attrs` (lines 209-219). -/
def get_pet_attrs (nbt : PyVal) : Except PyErr (List (String × PyVal)) := do
  let ea ← get_extra_attrs nbt
  let raw ← py_dict_get ea "petInfo" (.str "\x7b\x7d")
  match raw with
  | .str s => json_loads_flat s
  | _ => .error .typeError

/-- `extract_api_id` (lines 222-230): `extra_attrs['id']`. -/
def extract_api_id (nbt : PyVal) : Except PyErr PyVal := do
  let ea ← get_extra_attrs nbt
  py_getitem ea (.s "id")

/-- `extract_generic_display_name` (lines 256-263). -/
def extract_generic_display_name (nbt : PyVal) : Except PyErr String := do
  let a ← py_getitem nbt (.s "i")
  let b ← py_getitem a (.i 0)
  let c ← py_getitem b (.s "tag")
  let d ← py_getitem c (.s "display")
  let n ← py_getitem d (.s "Name")
  let s ← as_str n
  pure (without_nbt_style s)

/-- `extract_reforge` (lines 416-424): `extra_attrs.get('modifier')`. -/
def extract_reforge (nbt : PyVal) : Except PyErr (Option PyVal) := do
  let ea ← get_extra_attrs nbt
  py_dict_get_opt ea "modifier"

/-- The decorative glyphs removed by `extract_generic_base_name`
(regex class `[✪⚚✦◆™©�]`). -/
def decorative_glyphs : List Char := ['✪', '⚚', '✦', '◆', '™', '©', '�']

/-- `extract_generic_base_name` (lines 233-253). -/
def extract_generic_base_name (nbt : PyVal) : Except PyErr String := do
  let dn ← extract_generic_display_name nbt
  let name := String.mk (py_strip
    (dn.data.filter (fun c => ¬ decorative_glyphs.contains c)))
  let rf ← extract_reforge nbt
  if (match rf with | none => false | some v => py_truthy v) = false then
    pure name
  else
    pure ((sdict_get REFORGE_EXCEPTIONS name).getD (after_first_space name))

/-- `extract_rune` (lines 355-366): the first `(name, level)` entry of
`ExtraAttributes.runes`, or `None` when the key is absent. -/
def extract_rune (nbt : PyVal) :
    Except PyErr (Option (String × PyVal)) := do
  let ea ← get_extra_attrs nbt
  let c ← py_contains ea "runes"
  if c then do
    let rv ← py_getitem ea (.s "runes")
    let its ← py_items rv
    match its with
    | [] => .error .indexError
    | e :: _ => pure (some e)
  else pure none

/-- `extract_enchants` (lines 369-379):
`extra_attrs.get('enchantments', {}).items()` as `(name, level)` pairs. -/
def extract_enchants (nbt : PyVal) :
    Except PyErr (List (String × PyVal)) := do
  let ea ← get_extra_attrs nbt
  let en ← py_dict_get ea "enchantments" (.dict [])
  py_items en

/-- `extract_is_recombobulated` (lines 382-390). -/
def extract_is_recombobulated (nbt : PyVal) : Except PyErr Bool := do
  let ea ← get_extra_attrs nbt
  py_contains ea "rarity_upgrades"

/-- `extract_is_fragged` (lines 393-401):
`extract_api_id(nbt).startswith('STARRED_')`. -/
def extract_is_fragged (nbt : PyVal) : Except PyErr Bool := do
  let a ← extract_api_id nbt
  let s ← as_str a
  pure (py_startswith s "STARRED_")

/-- `extract_hot_potato_count` (lines 404-413). -/
def extract_hot_potato_count (nbt : PyVal) : Except PyErr PyVal := do
  let ea ← get_extra_attrs nbt
  py_dict_get ea "hot_potato_count" (.int 0)

/-- `extract_dungeon_stars` (lines 427-435). -/
def extract_dungeon_stars (nbt : PyVal) : Except PyErr PyVal := do
  let ea ← get_extra_attrs nbt
  py_dict_get ea "dungeon_item_level" (.int 0)

/-- `extract_pet_type` (lines 438-446). -/
def extract_pet_type (nbt : PyVal) : Except PyErr (Option PyVal) := do
  let attrs ← get_pet_attrs nbt
  pure (sdict_get attrs "type")

/-- `extract_stack_size` (lines 318-325): `nbt['i'][0]['Count']`. -/
def extract_stack_size (nbt : PyVal) : Except PyErr PyVal := do
  let a ← py_getitem nbt (.s "i")
  let b ← py_getitem a (.i 0)
  py_getitem b (.s "Count")

/-- The `for tag in lore` rescan of `extract_rarity` for runes (lines
340-344): the last lore line whose styled text ends in `COSMETIC`
replaces the default rarity line. -/
def rune_rarity_line (start : PyVal) :
    List PyVal → Except PyErr PyVal
  | [] => .ok start
  | tag :: rest => do
      let v ← py_value tag
      let s ← as_str v
      rune_rarity_line
        (if py_endswith (without_nbt_style s) "COSMETIC" then .str s
         else start) rest

/-- The body of `extract_rarity`'s `try` block (lines 336-349). -/
def extract_rarity_body (nbt : PyVal) : Except PyErr String := do
  let a ← py_getitem nbt (.s "i")
  let b ← py_getitem a (.i 0)
  let c ← py_getitem b (.s "tag")
  let d ← py_getitem c (.s "display")
  let lore ← py_getitem d (.s "Lore")
  let last ← py_getitem lore (.i (-1))
  let rl0 ← py_value last
  let api ← extract_api_id nbt
  let rline ←
    if py_eq_str api "RUNE" then
      match lore with
      | .lst elems => rune_rarity_line rl0 elems
      | _ => .error .typeError
    else pure rl0
  let s ← as_str rline
  match py_split_ws (without_nbt_style s) with
  | [] => .error .indexError
  | w :: _ =>
      let rarity := if ¬ (w = "VERY") then w else "VERY_SPECIAL"
      pure (if RARITIES.contains rarity then rarity else "UNKNOWN")

/-- `extract_rarity` (lines 328-352): the `try` body with `except
KeyError: return 'UNKNOWN'` — only `KeyError` is caught; `IndexError`
and `TypeError` from the same block propagate. -/
def extract_rarity (nbt : PyVal) : Except PyErr String :=
  match extract_rarity_body nbt with
  | .error .keyError => .ok "UNKNOWN"
  | r => r

/-- The general branch of `extract_identifiers` (lines 308-313): drop the
`STARRED_` fragment marker from the raw id, generic base and display
names. -/
def extract_identifiers_general (nbt : PyVal) (api : PyVal) :
    Except PyErr (String × String × String) := do
  let s ← as_str api
  let item_id := drop_leading s "STARRED_"
  let base_name ← extract_generic_base_name nbt
  let display_name ← extract_generic_display_name nbt
  pure (item_id, base_name, display_name)

/-- `extract_identifiers` (lines 266-315). -/
def extract_identifiers (nbt : PyVal) :
    Except PyErr (String × String × String) := do
  let api ← extract_api_id nbt
  if py_eq_str api "ENCHANTED_BOOK" then do
    let enchants ← extract_enchants nbt
    match enchants with
    | [(ench, lvl)] =>
        let ench1 := enchant_exceptions_get ench
        let item_id := py_upper ench1 ++ "_" ++ py_str lvl ++ "_BOOK"
        let base_name := py_replace (py_title item_id) '_' ' '
        pure (item_id, base_name, base_name)
    | _ => extract_identifiers_general nbt api
  else if py_eq_str api "RUNE" then do
    let r ← extract_rune nbt
    match r with
    | some (rune, lvl) =>
        let item_id := rune ++ "_RUNE_" ++ py_str lvl
        let gbn ← extract_generic_base_name nbt
        let base_name := before_last_space gbn ++ " " ++ py_str lvl
        let display_name ← extract_generic_display_name nbt
        pure (item_id, base_name, display_name)
    | none => .error .typeError
  else if py_eq_str api "PET" then do
    let pt ← extract_pet_type nbt
    let ptStr := match pt with | some v => py_str v | none => "None"
    let item_id := ptStr ++ "_PET"
    let base_name := py_replace (py_title item_id) '_' ' '
    let display_name ← extract_generic_display_name nbt
    pure (item_id, base_name, display_name)
  else if py_eq_str api "CAKE_SOUL" then do
    let display_name ← extract_generic_display_name nbt
    pure ("CAKE_SOUL", "Cake Soul", display_name)
  else extract_identifiers_general nbt api

/-- The fields `GenericItem.__init__` assigns (models/item.py lines
36-55), minus the base64/gzip `deserialize` step: the constructor is fed
the decoded tag tree. -/
structure GenericItem where
  item_id : String
  base_name : String
  display_name : String
  stack_size : PyVal
  rarity : String
  rune : Option (String × PyVal)
  enchants : List (String × PyVal)
  is_recombobulated : Bool
  is_fragged : Bool
  hot_potato_count : PyVal
  reforge : Option PyVal
  dungeon_stars : PyVal

/-- Splitting on a single separator character, Python `str.split(sep)`
field structure (empty fields preserved). -/
def split_char (sep : Char) : List Char → List (List Char)
  | [] => [[]]
  | c :: rest =>
      match split_char sep rest with
      | [] => [[]]
      | w :: ws => if c = sep then [] :: w :: ws else (c :: w) :: ws

def join_spaces : List String → String
  | [] => ""
  | [w] => w
  | w :: ws => w ++ " " ++ join_spaces ws

/-- The claim's reading of the rune base name, for comparison with the
code: "the generic base name with its trailing word replaced by L" — the
space-separated fields with the last one replaced by the level. -/
def spec_replace_trailing_word (s lvl : String) : String :=
  join_spaces ((split_char ' ' s.data).dropLast.map String.mk ++ [lvl])

/-- The claim's reading of the flush payload, for comparison with the
code: per buffered key, the pair (arithmetic mean of the key's samples,
sample count). -/
def spec_reduced_rows (buf : List ((String × String) × List ℚ)) :
    List ((String × String) × ℚ × Option ℕ) :=
  buf.map (fun kv => (kv.1, rat_mean kv.2, some kv.2.length))

/-- The rows `save_lbin_history` actually writes, rendered in the same
shape: the row schema `(timestamp, item_id, rarity, price)` has no
sample-count column, hence `none`. -/
def code_rows_rendered (buf : List ((String × String) × List ℚ)) :
    List ((String × String) × ℚ × Option ℕ) :=
  (save_lbin_rows buf).map (fun r => (r.1, r.2, (none : Option ℕ)))

/-- `GenericItem.__init__` (models/item.py lines 36-55), field
assignments in source order; any exception escapes the constructor. -/
def generic_item_init (nbt : PyVal) : Except PyErr GenericItem := do
  let ids ← extract_identifiers nbt
  let stack_size ← extract_stack_size nbt
  let rarity ← extract_rarity nbt
  let rune ← extract_rune nbt
  let enchants ← extract_enchants nbt
  let is_recombobulated ← extract_is_recombobulated nbt
  let is_fragged ← extract_is_fragged nbt
  let hot_potato_count ← extract_hot_potato_count nbt
  let reforge ← extract_reforge nbt
  let dungeon_stars ← extract_dungeon_stars nbt
  pure { item_id := ids.1, base_name := ids.2.1, display_name := ids.2.2,
         stack_size := stack_size, rarity := rarity, rune := rune,
         enchants := enchants, is_recombobulated := is_recombobulated,
         is_fragged := is_fragged, hot_potato_count := hot_potato_count,
         reforge := reforge, dungeon_stars := dungeon_stars }

/-! ### Concrete fixtures used by counterexamples and witnesses -/

/-- §8's enchanted-book tree with `display` nested under `tag` — the
location `extract_rarity` and `extract_generic_display_name` read
(`nbt['i'][0]['tag']['display']`). -/
def book_tree_display_under_tag : PyVal :=
  .tagObj "" (.dict [("i", .lst [ .tagObj "" (.dict [
    ("Count", .int 1),
    ("tag", .dict [
      ("ExtraAttributes", .dict [
        ("id", .str "ENCHANTED_BOOK"),
        ("enchantments", .dict [("sharpness", .int 5)])]),
      ("display", .dict [
        ("Name", .str "§rEnchanted Book"),
        ("Lore", .lst [ .tagObj "" (.str "§fRARE") ])])])])])])

/-- §8's enchanted-book tree exactly as the claim brackets it:
`display` a sibling of `tag` inside `i[0]`. -/
def book_tree_literal : PyVal :=
  .tagObj "" (.dict [("i", .lst [ .tagObj "" (.dict [
    ("Count", .int 1),
    ("tag", .dict [
      ("ExtraAttributes", .dict [
        ("id", .str "ENCHANTED_BOOK"),
        ("enchantments", .dict [("sharpness", .int 5)])])]),
    ("display", .dict [
      ("Name", .str "§rEnchanted Book"),
      ("Lore", .lst [ .tagObj "" (.str "§fRARE") ])])])])])

/-- A rune item whose generic base name is the two-word `Blood Rune`
after the level numeral is dropped (the shape of `test_rune`,
src/tests/test_parsing.py lines 187-194). -/
def rune_tree_blood : PyVal :=
  .tagObj "" (.dict [("i", .lst [ .tagObj "" (.dict [
    ("Count", .int 1),
    ("tag", .dict [
      ("ExtraAttributes", .dict [
        ("id", .str "RUNE"),
        ("runes", .dict [("BLOOD_2", .int 3)])]),
      ("display", .dict [
        ("Name", .str "§5◆ Blood Rune III")])])])])])

/-- A rune item whose generic base name `Music` has no space. -/
def rune_tree_music : PyVal :=
  .tagObj "" (.dict [("i", .lst [ .tagObj "" (.dict [
    ("Count", .int 1),
    ("tag", .dict [
      ("ExtraAttributes", .dict [
        ("id", .str "RUNE"),
        ("runes", .dict [("MUSIC", .int 1)])]),
      ("display", .dict [
        ("Name", .str "§5Music")])])])])])

/-- The empty root tag: every required lookup misses. -/
def empty_tree : PyVal := .tagObj "" (.dict [])

/-- A tree carrying exactly the lookups `GenericItem.__init__` cannot do
without — `i[0].Count`, `i[0].tag.display.Name`,
`i[0].tag.ExtraAttributes.id` — and none of the optional keys. -/
def minimal_tree : PyVal :=
  .tagObj "" (.dict [("i", .lst [ .tagObj "" (.dict [
    ("Count", .int 1),
    ("tag", .dict [
      ("ExtraAttributes", .dict [("id", .str "WIDGET")]),
      ("display", .dict [("Name", .str "Widget")])])])])])

def cfg_fix : CacheCfg := { minDelay := 0, maxDelay := 10 }

/-- Every page healthy and in agreement; the feed advances by one unit
per attempt and attempt 0 already succeeds. -/
def env_ok : ℕ → Attempt := fun k =>
  { probe := { status := 200, body := some (5 + k, 2, [0]) },
    now := 6 + k,
    reProbe := { status := 200, body := some (5 + k, 2, [0]) },
    pages := fun pg =>
      { status := 200, body := some (5 + k, 2, [10 * k + pg]) } }

/-- Attempt 0 probes a 2-page snapshot but page 1 reports a drifted
timestamp; attempt 1 answers consistently at the new timestamp. -/
def env_drift : ℕ → Attempt := fun k =>
  { probe := { status := 200, body := some (5 + k, 2, [0]) },
    now := 6 + k,
    reProbe := { status := 200, body := some (5 + k, 2, [0]) },
    pages := fun pg =>
      if k = 0 ∧ pg = 1 then { status := 200, body := some (99, 2, [7]) }
      else { status := 200, body := some (5 + k, 2, [10 * k + pg]) } }

/-- A healthy probe whose page bodies are unreadable. -/
def env_malformed_page : ℕ → Attempt := fun _ =>
  { probe := { status := 200, body := some (5, 1, [9]) },
    now := 6,
    reProbe := { status := 200, body := some (5, 1, [9]) },
    pages := fun _ => { status := 200, body := none } }

/-- A probe answered with HTTP 500. -/
def env_transport : ℕ → Attempt := fun _ =>
  { probe := { status := 500, body := none },
    now := 6,
    reProbe := { status := 200, body := some (5, 1, [9]) },
    pages := fun _ => { status := 200, body := some (5, 1, [9]) } }

/-- One buy-now listing, listed for exactly one minute at snapshot time:
unit price `3 / 1` under the key `("A", "RARE")`. -/
def fix_auction : ActiveAuction :=
  { is_bin := true, price := 3, start_time := 0,
    item := { item_id := "A", rarity := "RARE", stack_size := 1 } }

/-! ## Theorems -/

/-! ### General lemmas -/

theorem ebind_ok {ε α β : Type} (a : α) (f : α → Except ε β) :
    ((Except.ok a : Except ε α) >>= f) = f a := rfl

theorem update_active_buffers_aa_last_update
    (th : ℕ) (st : AHState) (lu : ℤ) (acts : List ActiveAuction) :
    (update_active_buffers th st lu acts).aa_last_update =
      st.aa_last_update := by
  simp only [update_active_buffers]
  split <;> rfl

theorem accept_snapshot_aa_last_update
    (th : ℕ) (st : AHState) (t : ℤ) (acts : List ActiveAuction) :
    (accept_snapshot th st t acts).aa_last_update = some t := by
  simp only [accept_snapshot, update_active_buffers_aa_last_update]

theorem cache_aa_last_update (th : ℕ) (f : ActiveAuction → Bool)
    (st : AHState) (t : ℤ) (l : List ActiveAuction) :
    (cache_active_auctions th f st (t, l)).aa_last_update = some t := by
  simp only [cache_active_auctions]
  split
  · next h => exact h.symm
  · exact accept_snapshot_aa_last_update ..

/-! ### C9 — idempotent dedup -/

/-- C9: running the acquisition-and-cache cycle a second time while the
feed still reports the same `lastUpdated` timestamp `t` leaves the entire
`AuctionHouse` state — cached snapshot, last-update timestamp, counters,
occurrence map, aggregation buffers, and emitted flushes — exactly as the
first call left it: the second call short-circuits on the dedup check. -/
theorem cache_active_auctions_idempotent (th : ℕ)
    (f : ActiveAuction → Bool) (st : AHState) (t : ℤ)
    (l1 l2 : List ActiveAuction) :
    cache_active_auctions th f (cache_active_auctions th f st (t, l1))
      (t, l2) = cache_active_auctions th f st (t, l1) := by
  conv_lhs => rw [cache_active_auctions]
  rw [if_pos (cache_aa_last_update th f st t l1).symm]

/-! ### C5 — totality of item extraction -/

/-- C5 counterexample: on the empty root tag every required lookup is
missing, and instead of degrading to defaults the constructor raises:
`extract_api_id` (`extra_attrs['id']`) and `extract_stack_size`
(`nbt['i'][0]['Count']`) raise `KeyError`, and so does
`GenericItem.__init__` as a whole — extraction is not total. -/
theorem generic_item_init_raises :
    generic_item_init empty_tree = .error .keyError ∧
    extract_api_id empty_tree = .error .keyError ∧
    extract_stack_size empty_tree = .error .keyError :=
  ⟨rfl, rfl, rfl⟩

/-- C5 amended: when the constructor's required lookups are present
(`i[0].Count`, `i[0].tag.display.Name`, `i[0].tag.ExtraAttributes.id`)
and every optional key is absent, construction succeeds and each optional
field takes its documented default: rarity `UNKNOWN`, empty enchantment
list, absent rune/reforge, false flags, zero counts. -/
theorem generic_item_init_minimal_defaults :
    generic_item_init minimal_tree =
      .ok { item_id := "WIDGET", base_name := "Widget",
            display_name := "Widget", stack_size := .int 1,
            rarity := "UNKNOWN", rune := none, enchants := [],
            is_recombobulated := false, is_fragged := false,
            hot_potato_count := .int 0, reforge := none,
            dungeon_stars := .int 0 } := rfl

/-! ### C6 — the concrete enchanted-book extraction case -/

/-- C6 counterexample: on the tag tree exactly as the claim writes it
(`display` a sibling of `tag` inside `i[0]`), the identifier and
enchantment parts come out as claimed, but `extract_rarity` reads
`nbt['i'][0]['tag']['display']['Lore']`, misses, catches the `KeyError`
and yields `UNKNOWN` — not `RARE`. -/
theorem book_literal_rarity_unknown :
    extract_identifiers book_tree_literal =
      .ok ("SHARPNESS_5_BOOK", "Sharpness 5 Book", "Sharpness 5 Book") ∧
    extract_enchants book_tree_literal = .ok [("sharpness", .int 5)] ∧
    extract_rarity book_tree_literal = .ok "UNKNOWN" ∧
    ¬ extract_rarity book_tree_literal = .ok "RARE" := by
  refine ⟨rfl, rfl, rfl, fun h => ?_⟩
  exact absurd (Except.ok.inj h) (by decide)

/-- C6 amended: with `display` nested under `tag` — the path the
extractor actually reads — the §8 case holds: item id
`SHARPNESS_5_BOOK`, rarity `RARE`, enchantments `{("sharpness", 5)}`. -/
theorem book_extraction_case :
    extract_identifiers book_tree_display_under_tag =
      .ok ("SHARPNESS_5_BOOK", "Sharpness 5 Book", "Sharpness 5 Book") ∧
    extract_rarity book_tree_display_under_tag = .ok "RARE" ∧
    extract_enchants book_tree_display_under_tag =
      .ok [("sharpness", .int 5)] :=
  ⟨rfl, rfl, rfl⟩

/-! ### C10 — the rune identifier rule -/

/-- C10 counterexample: for a rune whose generic base name `Music` has a
single word, the claim's "trailing word replaced by the level" demands
base name `1`, but the code (`rsplit(' ', 1)[0] + f' {lvl}'`) appends
instead, producing `Music 1`; the item id is still `MUSIC_RUNE_1`. -/
theorem rune_single_word_base_name :
    extract_rune rune_tree_music = .ok (some ("MUSIC", .int 1)) ∧
    extract_generic_base_name rune_tree_music = .ok "Music" ∧
    extract_identifiers rune_tree_music =
      .ok ("MUSIC_RUNE_1", "Music 1", "Music") ∧
    spec_replace_trailing_word "Music" (py_str (.int 1)) = "1" ∧
    ¬ ("Music 1" = spec_replace_trailing_word "Music" (py_str (.int 1))) :=
  ⟨rfl, rfl, rfl, rfl, by decide⟩

/-- C10 amended: for every item whose raw API id is `RUNE` and whose
`ExtraAttributes.runes` compound has first entry `(r, lvl)`, the derived
item id is `r`, the literal `RUNE` token and the level joined by
underscores, in that order; the base name is the generic base name
truncated at its last space with a space and the level appended (for a
base name of two or more words this replaces the trailing word; a
space-free base name keeps its word); the display name is the generic
display name. -/
theorem rune_identifier_composition (nbt : PyVal) (r : String)
    (lvl : PyVal) (gbn dn : String)
    (hapi : extract_api_id nbt = .ok (.str "RUNE"))
    (hrune : extract_rune nbt = .ok (some (r, lvl)))
    (hgbn : extract_generic_base_name nbt = .ok gbn)
    (hdn : extract_generic_display_name nbt = .ok dn) :
    extract_identifiers nbt =
      .ok (r ++ "_RUNE_" ++ py_str lvl,
           before_last_space gbn ++ " " ++ py_str lvl, dn) := by
  simp only [extract_identifiers, hapi, hrune, hgbn, hdn, ebind_ok,
    py_eq_str]
  rfl

/-- C10 witness: the composition applied to the two-word rune item of
`test_rune`. -/
theorem rune_identifier_composition_witness :
    extract_identifiers rune_tree_blood =
      .ok ("BLOOD_2" ++ "_RUNE_" ++ py_str (.int 3),
           before_last_space "Blood Rune III" ++ " " ++ py_str (.int 3),
           "◆ Blood Rune III") :=
  rune_identifier_composition rune_tree_blood "BLOOD_2" (.int 3)
    "Blood Rune III" "◆ Blood Rune III" rfl rfl rfl rfl

/-! ### C3 and C4 counterexamples -/

/-- C3 counterexample: a malformed page body (`MalformedResponseError`)
and a non-success probe status (`ResponseCodeError`) both escape
`get_active_auctions` to its caller — only `UnexpectedUpdateError` is
retried. -/
theorem api_errors_escape :
    get_active_auctions cfg_fix env_malformed_page 3 0 [] =
      some (.error .malformed) ∧
    get_active_auctions cfg_fix env_transport 3 0 [] =
      some (.error (.responseCode 500)) :=
  ⟨rfl, rfl⟩

/-- C4 counterexample: on truncated input the decoder raises nothing —
there is no `DecodeError` anywhere in the source; `read` at end of input
returns `b''`, `int.from_bytes(b'')` is `0`, and `0` is the compound
sentinel, so a compound truncated before its terminator silently decodes
to an (empty) tag tree, both for `parse_compound` on an exhausted stream
and for `deserialize` on a stream holding only the outer type byte. -/
theorem parse_compound_truncated_silent :
    parse_compound 3 true [] = .ok (.tag ([], .compound []), []) ∧
    deserialize_tag 3 [10] = .ok (.tag ([], .compound []), []) :=
  ⟨rfl, rfl⟩

/-! ### Acquisition lemmas for C1 and C3 -/

theorem get_params_error_class (r : HttpResp) (e : ApiError)
    (h : get_params r = .error e) : ¬ e = .unexpectedUpdate := by
  unfold get_params at h
  split at h
  · cases h
    simp
  · split at h
    · cases h
      simp
    · cases h

theorem align_params_error_class (cfg : CacheCfg) (a : Attempt)
    (p : ℕ × ℤ) (e : ApiError) (h : align_params cfg a p = .error e) :
    ¬ e = .unexpectedUpdate := by
  unfold align_params at h
  split at h
  · exact get_params_error_class _ _ h
  · cases h

theorem get_page_ok_inv (t : ℤ) (r : HttpResp) (au : List ℤ)
    (h : get_page t r = .ok au) :
    r.status = 200 ∧ ∃ tp, r.body = some (t, tp, au) := by
  unfold get_page at h
  split at h
  · cases h
  · split at h
    · cases h
    · next h404 hne =>
      refine ⟨by omega, ?_⟩
      split at h
      · cases h
      · next t' tp au' hbody =>
        split at h
        · cases h
        · next hteq =>
          cases h
          exact ⟨tp, by rw [hbody, not_not.mp hteq]⟩

theorem gather_pages_ok_mem (f : ℕ → Except ApiError (List ℤ))
    (ps : List ℕ) (rs : List (List ℤ))
    (h : gather_pages f ps = .ok rs) :
    ∀ pg ∈ ps, ∃ au, f pg = .ok au := by
  induction ps generalizing rs with
  | nil => intro pg hm; cases hm
  | cons p prest ih =>
      intro pg hm
      rw [gather_pages] at h
      rcases hf : f p with e | au <;> rw [hf] at h
      · cases h
      · rcases hg : gather_pages f prest with e | rest2 <;> rw [hg] at h
        · cases h
        · rcases List.mem_cons.mp hm with rfl | hmem
          · exact ⟨au, hf⟩
          · exact ih rest2 hg pg hmem

/-! ### C3 — error propagation out of the acquirer -/

/-- C3 amended: the only error class the acquirer absorbs with its
30-second backoff-and-restart is `UnexpectedUpdateError` (a 404 page or a
cross-page timestamp mismatch).  Whenever `get_active_auctions` raises,
the escaped error is a `ResponseCodeError` or a
`MalformedResponseError` — transport and malformed-body errors are *not*
retried (the probes run outside the `try`, whose only handler is
`except UnexpectedUpdateError`), while an `UnexpectedUpdateError` never
escapes. -/
theorem only_unexpected_update_retried (cfg : CacheCfg)
    (env : ℕ → Attempt) : ∀ (fuel k : ℕ) (args : List ℕ) (e : ApiError),
    get_active_auctions cfg env fuel k args = some (.error e) →
    ¬ e = .unexpectedUpdate := by
  intro fuel
  induction fuel with
  | zero =>
      intro k args e h
      simp [get_active_auctions] at h
  | succ n ih =>
      intro k args e h
      simp only [get_active_auctions] at h
      rcases hp : get_params (env k).probe with e1 | p
      · simp only [hp] at h
        obtain rfl : e1 = e := Except.error.inj (Option.some.inj h)
        exact get_params_error_class _ _ hp
      · simp only [hp] at h
        rcases ha : align_params cfg (env k) p with e2 | q
        · simp only [ha] at h
          obtain rfl : e2 = e := Except.error.inj (Option.some.inj h)
          exact align_params_error_class _ _ _ _ ha
        · simp only [ha] at h
          rcases hg : gather_pages (fun pg => get_page q.2 ((env k).pages pg))
              (if args.isEmpty then List.range q.1 else args) with e3 | rs
          · cases e3 with
            | unexpectedUpdate =>
                simp only [hg] at h
                exact ih _ _ _ h
            | responseCode s =>
                simp only [hg] at h
                obtain rfl : ApiError.responseCode s = e :=
                  Except.error.inj (Option.some.inj h)
                simp
            | malformed =>
                simp only [hg] at h
                obtain rfl : ApiError.malformed = e :=
                  Except.error.inj (Option.some.inj h)
                simp
          · simp only [hg] at h
            cases Option.some.inj h

/-- C3 witness: the amended statement applied to the transport-failure
environment, whose escaped error is `ResponseCodeError(500)`. -/
theorem only_unexpected_update_retried_witness :
    ¬ (ApiError.responseCode 500) = .unexpectedUpdate :=
  only_unexpected_update_retried cfg_fix env_transport 3 0 []
    (.responseCode 500) rfl

/-! ### C1 — snapshot atomicity -/

/-- C1: whatever `get_active_auctions` returns successfully is an
internally consistent and *complete* snapshot of one attempt.  The page
list the statement quantifies over is pinned to exactly what the code
requests: the positional `args`, or, when `args` is empty,
`List.range q.1` for the page count `q.1` probed (and realigned) in the
starting attempt `k` — on an `UnexpectedUpdateError` the coroutine
retries itself with that same list, so it is also the list requested in
every retry.  There is a single attempt `j` (the starting attempt or a
later retry; every earlier attempt was discarded whole) in which *every*
page of that list answered 200 with a body reporting exactly the
returned timestamp `t`, and the returned listings are the concatenation
of all those pages in page order — never a proper subset of them. -/
theorem get_active_auctions_atomic (cfg : CacheCfg) (env : ℕ → Attempt) :
    ∀ (fuel k : ℕ) (args : List ℕ) (t : ℤ) (listings : List ℤ),
    get_active_auctions cfg env fuel k args = some (.ok (t, listings)) →
    ∃ (j : ℕ) (p q : ℕ × ℤ) (results : List (List ℤ)),
      k ≤ j ∧
      get_params (env k).probe = .ok p ∧
      align_params cfg (env k) p = .ok q ∧
      gather_pages (fun pg => get_page t ((env j).pages pg))
        (if args.isEmpty then List.range q.1 else args) = .ok results ∧
      listings = results.flatten ∧
      ∀ pg ∈ (if args.isEmpty then List.range q.1 else args), ∃ tp au,
        ((env j).pages pg).status = 200 ∧
        ((env j).pages pg).body = some (t, tp, au) ∧
        get_page t ((env j).pages pg) = .ok au := by
  intro fuel
  induction fuel with
  | zero =>
      intro k args t listings h
      simp [get_active_auctions] at h
  | succ n ih =>
      intro k args t listings h
      simp only [get_active_auctions] at h
      rcases hp : get_params (env k).probe with e1 | p
      · simp only [hp] at h
        cases Option.some.inj h
      · simp only [hp] at h
        rcases ha : align_params cfg (env k) p with e2 | q
        · simp only [ha] at h
          cases Option.some.inj h
        · simp only [ha] at h
          rcases hg : gather_pages (fun pg => get_page q.2 ((env k).pages pg))
              (if args.isEmpty then List.range q.1 else args) with e3 | rs
          · cases e3 with
            | unexpectedUpdate =>
                simp only [hg] at h
                obtain ⟨j, p2, q2, results, hk, hp2, ha2, hgat, hflat, hpg⟩ :=
                  ih _ _ _ _ h
                obtain ⟨a, l, hPN⟩ : ∃ a l,
                    (if args.isEmpty then List.range q.1 else args) = a :: l := by
                  rcases hPN : (if args.isEmpty then List.range q.1 else args)
                      with _ | ⟨a2, l2⟩
                  · rw [hPN] at hg
                    simp only [gather_pages] at hg
                    cases hg
                  · exact ⟨a2, l2, rfl⟩
                rw [hPN] at hgat hpg
                refine ⟨j, p, q, results, le_trans (Nat.le_succ k) hk, rfl, ha,
                  ?_, hflat, ?_⟩
                · rw [hPN]
                  exact hgat
                · rw [hPN]
                  exact hpg
            | responseCode s =>
                simp only [hg] at h
                cases Option.some.inj h
            | malformed =>
                simp only [hg] at h
                cases Option.some.inj h
          · simp only [hg] at h
            obtain ⟨hq2, hlist⟩ :=
              Prod.mk.injEq .. ▸ Except.ok.inj (Option.some.inj h)
            refine ⟨k, p, q, rs, le_refl k, rfl, ha,
              by rw [← hq2]; exact hg, hlist.symm, ?_⟩
            intro pg hm
            obtain ⟨au, hau⟩ := gather_pages_ok_mem _ _ _ hg pg hm
            have hau' : get_page t ((env k).pages pg) = .ok au := by
              rw [← hq2]; exact hau
            obtain ⟨hst, tp, hbody⟩ := get_page_ok_inv _ _ _ hau'
            exact ⟨tp, au, hst, hbody, hau'⟩

/-- C1 witness: the atomicity statement applied to an environment whose
attempt 0 probes a 2-page snapshot but has page 1 report a drifted
timestamp — the run discards attempt 0 whole and returns the complete
snapshot of attempt 1 over the pinned page list `List.range q.1`
(`q.1 = 2` from attempt 0's probe). -/
theorem get_active_auctions_atomic_witness :
    ∃ (j : ℕ) (p q : ℕ × ℤ) (results : List (List ℤ)),
      0 ≤ j ∧
      get_params (env_drift 0).probe = .ok p ∧
      align_params cfg_fix (env_drift 0) p = .ok q ∧
      gather_pages (fun pg => get_page 6 ((env_drift j).pages pg))
        (if ([] : List ℕ).isEmpty then List.range q.1 else []) =
        .ok results ∧
      [10, 11] = results.flatten ∧
      ∀ pg ∈ (if ([] : List ℕ).isEmpty then List.range q.1 else []),
        ∃ tp au,
        ((env_drift j).pages pg).status = 200 ∧
        ((env_drift j).pages pg).body = some (6, tp, au) ∧
        get_page 6 ((env_drift j).pages pg) = .ok au :=
  get_active_auctions_atomic cfg_fix env_drift 3 0 [] 6 [10, 11] rfl

/-! ### C4 — decoder bounds -/

theorem read_scalars_suffix (w : ℕ) :
    ∀ (n : ℕ) (s : List ℕ), (read_scalars w n s).2 <:+ s := by
  intro n
  induction n with
  | zero => intro s; exact List.suffix_refl s
  | succ m ih =>
      intro s
      simp only [read_scalars]
      exact (ih (s.drop w)).trans (List.drop_suffix w s)

theorem pop_string_suffix (s : List ℕ) : (pop_string s).2 <:+ s := by
  simp only [pop_string, pop_ushort]
  exact (List.drop_suffix _ (s.drop 2)).trans (List.drop_suffix 2 s)

theorem name_pop_suffix (readName : Bool) (s : List ℕ) :
    (if readName then pop_string s else ([], s)).2 <:+ s := by
  cases readName
  · exact List.suffix_refl s
  · exact pop_string_suffix s

/-- C4 amended, universal part: the decoder never reads past the end of
the input — whatever any parser returns, the unconsumed stream is a
suffix of the stream it was given (every primitive read takes only the
bytes that remain). -/
theorem parse_run_no_overread :
    ∀ (fuel : ℕ) (job : PJob) (s : List ℕ) (r : PRes) (s2 : List ℕ),
      parse_run fuel job s = .ok (r, s2) → s2 <:+ s := by
  intro fuel
  induction fuel with
  | zero => intro job s r s2 h; cases h
  | succ n ih =>
      intro job s r s2 h
      match job with
      | .payload idx readName =>
          have hname := name_pop_suffix readName s
          rcases idx with _ | _ | _ | _ | _ | _ | _ | _ | _ | _ | _ | _ |
              _ | idx0 <;>
            simp only [parse_run] at h <;>
            set s1 := (if readName then pop_string s else ([], s)).2
              with hs1
          · cases h
          · cases h
            exact (List.drop_suffix 1 _).trans hname
          · cases h
            exact (List.drop_suffix 2 _).trans hname
          · cases h
            exact (List.drop_suffix 4 _).trans hname
          · cases h
            exact (List.drop_suffix 8 _).trans hname
          · split at h
            · cases h
            · cases h
              exact (List.drop_suffix 4 _).trans hname
          · split at h
            · cases h
            · cases h
              exact (List.drop_suffix 8 _).trans hname
          · cases h
            exact ((read_scalars_suffix 1 _ _).trans
              (List.drop_suffix 4 _)).trans hname
          · cases h
            exact (pop_string_suffix _).trans hname
          · rcases hin : parse_run n
                (.listElems (be_signed (s1.take 1))
                  (be_signed ((s1.drop 1).take 4)).toNat)
                ((s1.drop 1).drop 4) with e | pr
            · simp only [hin] at h
              cases h
            · simp only [hin] at h
              rcases pr with ⟨pres, s3⟩
              cases pres with
              | tag t => cases h
              | tags l =>
                  cases h
                  exact (((ih _ _ _ _ hin).trans
                    (List.drop_suffix 4 _)).trans
                    (List.drop_suffix 1 _)).trans hname
          · rcases hin : parse_run n (.entries []) s1 with e | pr
            · simp only [hin] at h
              cases h
            · simp only [hin] at h
              rcases pr with ⟨pres, s3⟩
              cases pres with
              | tag t => cases h
              | tags l =>
                  cases h
                  exact (ih _ _ _ _ hin).trans hname
          · cases h
            exact ((read_scalars_suffix 4 _ _).trans
              (List.drop_suffix 4 _)).trans hname
          · cases h
            exact ((read_scalars_suffix 8 _ _).trans
              (List.drop_suffix 4 _)).trans hname
          · cases h
      | .listElems ct num =>
          rcases num with _ | m <;> simp only [parse_run] at h
          · cases h
            exact List.suffix_refl s
          · rcases hpi : parsers_index ct with _ | idx2
            · simp only [hpi] at h
              cases h
            · simp only [hpi] at h
              rcases idx2 with _ | idx3
              · simp only [] at h
                cases h
              · simp only [] at h
                rcases hin : parse_run n (.payload (idx3 + 1) false) s
                    with e | pr
                · simp only [hin] at h
                  cases h
                · simp only [hin] at h
                  rcases pr with ⟨pres, s3⟩
                  cases pres with
                  | tags l => cases h
                  | tag t =>
                      rcases hin2 : parse_run n (.listElems ct m) s3
                          with e | pr2
                      · simp only [hin2] at h
                        cases h
                      · simp only [hin2] at h
                        rcases pr2 with ⟨pres2, s4⟩
                        cases pres2 with
                        | tag t2 => cases h
                        | tags l2 =>
                            cases h
                            exact (ih _ _ _ _ hin2).trans (ih _ _ _ _ hin)
      | .entries acc =>
          simp only [parse_run] at h
          split at h
          · cases h
            exact List.drop_suffix 1 s
          · rcases hpi : parsers_index (pop_byte s).1 with _ | idx2
            · simp only [hpi] at h
              cases h
            · simp only [hpi] at h
              rcases idx2 with _ | idx3
              · simp only [] at h
                cases h
              · simp only [] at h
                rcases hin : parse_run n (.payload (idx3 + 1) true)
                    (pop_byte s).2 with e | pr
                · simp only [hin] at h
                  cases h
                · simp only [hin] at h
                  rcases pr with ⟨pres, s3⟩
                  cases pres with
                  | tags l => cases h
                  | tag t =>
                      exact (ih _ _ _ _ h).trans
                        ((ih _ _ _ _ hin).trans (List.drop_suffix 1 s))

/-- C4 amended witness: the no-overread statement applied to the
truncated-compound run of the counterexample. -/
theorem parse_run_no_overread_witness : ([] : List ℕ) <:+ ([] : List ℕ) :=
  parse_run_no_overread 3 (.payload 10 true) []
    (.tag ([], .compound [])) [] rfl

/-! ### Association-list lemmas for the buffer claims -/

theorem alist_get_set_self {K α : Type} [DecidableEq K]
    (m : List (K × α)) (k : K) (v : α) :
    alist_get (alist_set m k v) k = some v := by
  induction m with
  | nil => simp [alist_set, alist_get]
  | cons e t ih =>
      rcases e with ⟨k2, v2⟩
      by_cases hk : k2 = k
      · simp [alist_set, hk, alist_get]
      · simp [alist_set, hk, alist_get, ih]

theorem alist_get_set_ne {K α : Type} [DecidableEq K]
    (m : List (K × α)) (k2 k : K) (v : α) (h : ¬ k2 = k) :
    alist_get (alist_set m k2 v) k = alist_get m k := by
  induction m with
  | nil => simp [alist_set, alist_get, h]
  | cons e t ih =>
      rcases e with ⟨k3, v3⟩
      by_cases hk : k3 = k2
      · simp [alist_set, hk, alist_get, h]
      · simp only [alist_set, if_neg hk, alist_get]
        by_cases hk3 : k3 = k
        · simp [hk3]
        · simp [hk3, ih]

theorem alist_get_none_not_mem {K α : Type} [DecidableEq K]
    (m : List (K × α)) (k : K) :
    alist_get m k = none ↔ ¬ k ∈ m.map Prod.fst := by
  induction m with
  | nil => simp [alist_get]
  | cons e t ih =>
      rcases e with ⟨k2, v2⟩
      by_cases hk : k2 = k
      · simp [alist_get, hk]
      · simp [alist_get, hk, ih, Ne.symm hk]

theorem alist_set_keys_mem {K α : Type} [DecidableEq K]
    (m : List (K × α)) (k : K) (v : α) (h : ¬ alist_get m k = none) :
    (alist_set m k v).map Prod.fst = m.map Prod.fst := by
  induction m with
  | nil => simp [alist_get] at h
  | cons e t ih =>
      rcases e with ⟨k2, v2⟩
      by_cases hk : k2 = k
      · simp [alist_set, hk]
      · simp only [alist_get, if_neg hk] at h
        simp [alist_set, hk, ih h]

theorem alist_set_keys_fresh {K α : Type} [DecidableEq K]
    (m : List (K × α)) (k : K) (v : α) (h : alist_get m k = none) :
    (alist_set m k v).map Prod.fst = m.map Prod.fst ++ [k] := by
  induction m with
  | nil => simp [alist_set]
  | cons e t ih =>
      rcases e with ⟨k2, v2⟩
      by_cases hk : k2 = k
      · simp [alist_get, hk] at h
      · simp only [alist_get, if_neg hk] at h
        simp [alist_set, hk, ih h]

theorem alist_set_keys_nodup {K α : Type} [DecidableEq K]
    (m : List (K × α)) (k : K) (v : α)
    (h : (m.map Prod.fst).Nodup) :
    ((alist_set m k v).map Prod.fst).Nodup := by
  rcases hg : alist_get m k with _ | w
  · rw [alist_set_keys_fresh m k v hg]
    have hk : ¬ k ∈ m.map Prod.fst := (alist_get_none_not_mem m k).mp hg
    simp [List.nodup_append, h, hk]
  · rw [alist_set_keys_mem m k v (by simp [hg])]
    exact h

/-! ### Scan lemmas for C8 -/

theorem active_scan_snd (lu : ℤ) :
    ∀ (acts : List ActiveAuction)
      (occ occ2 : List ((String × String) × ℕ))
      (cur : List ((String × String) × ℚ)),
      (active_scan lu (occ, cur) acts).2 =
        (active_scan lu (occ2, cur) acts).2 := by
  intro acts
  induction acts with
  | nil => intro occ occ2 cur; rfl
  | cons a rest ih => intro occ occ2 cur; simp only [active_scan]; exact ih ..

theorem lbin_min_cons_pos (lu : ℤ) (a : ActiveAuction)
    (rest : List ActiveAuction) (k : String × String)
    (h1 : qualifying lu a = true)
    (h2 : (a.item.item_id, a.item.rarity) = k) :
    lbin_min lu (a :: rest) k =
      opt_min (some (unit_price a)) (lbin_min lu rest k) := by
  simp only [lbin_min, List.filter_cons]
  rw [if_pos (by rw [h1, h2]; simp)]
  simp only [List.map_cons, list_min]
  rcases list_min ((rest.filter (fun x =>
      qualifying lu x && decide ((x.item.item_id, x.item.rarity) = k))).map
      unit_price) with _ | m <;> rfl

theorem lbin_min_cons_neg (lu : ℤ) (a : ActiveAuction)
    (rest : List ActiveAuction) (k : String × String)
    (h : (qualifying lu a &&
      decide ((a.item.item_id, a.item.rarity) = k)) = false) :
    lbin_min lu (a :: rest) k = lbin_min lu rest k := by
  simp only [lbin_min, List.filter_cons, h]
  simp

theorem active_scan_get (lu : ℤ) :
    ∀ (acts : List ActiveAuction)
      (occ : List ((String × String) × ℕ))
      (cur : List ((String × String) × ℚ)) (k : String × String),
      alist_get (active_scan lu (occ, cur) acts).2 k =
        opt_min (alist_get cur k) (lbin_min lu acts k) := by
  intro acts
  induction acts with
  | nil =>
      intro occ cur k
      simp only [active_scan, lbin_min, List.filter_nil, List.map_nil,
        list_min]
      rcases alist_get cur k with _ | v <;> rfl
  | cons a rest ih =>
      intro occ cur k
      simp only [active_scan]
      have hqdef : (a.is_bin && decide (lu - a.start_time ≥ minute_td)) =
        qualifying lu a := rfl
      rw [hqdef, ih]
      by_cases hq : qualifying lu a = true
      · rw [if_pos hq]
        by_cases hk : (a.item.item_id, a.item.rarity) = k
        · subst hk
          rw [lbin_min_cons_pos lu a rest _ hq rfl]
          rcases hcur : alist_get cur (a.item.item_id, a.item.rarity)
              with _ | v
          · rw [alist_get_set_self]
            rcases lbin_min lu rest (a.item.item_id, a.item.rarity)
                with _ | m <;> rfl
          · rw [alist_get_set_self]
            rcases lbin_min lu rest (a.item.item_id, a.item.rarity)
                with _ | m
            · rfl
            · show some _ = some _
              rw [min_assoc]
        · rw [lbin_min_cons_neg lu a rest k (by simp [hk])]
          rcases hcur : alist_get cur (a.item.item_id, a.item.rarity)
              with _ | v <;>
            rw [alist_get_set_ne _ _ _ _ hk]
      · have hq0 : qualifying lu a = false := by
          rcases hb : qualifying lu a
          · rfl
          · exact absurd hb hq
        rw [if_neg (by rw [hq0]; simp),
          lbin_min_cons_neg lu a rest k (by rw [hq0]; simp)]

theorem active_scan_keys_nodup (lu : ℤ) :
    ∀ (acts : List ActiveAuction)
      (occ : List ((String × String) × ℕ))
      (cur : List ((String × String) × ℚ)),
      (cur.map Prod.fst).Nodup →
      (((active_scan lu (occ, cur) acts).2).map Prod.fst).Nodup := by
  intro acts
  induction acts with
  | nil => intro occ cur h; exact h
  | cons a rest ih =>
      intro occ cur h
      simp only [active_scan]
      apply ih
      split
      · rcases alist_get cur (a.item.item_id, a.item.rarity) with _ | v <;>
          exact alist_set_keys_nodup _ _ _ h
      · exact h

theorem buf_samples_append_other
    (buf : List ((String × String) × List ℚ)) (k2 k : String × String)
    (l : List ℚ) (h : ¬ k2 = k) :
    buf_samples (alist_set buf k2 l) k = buf_samples buf k := by
  simp [buf_samples, alist_get_set_ne _ _ _ _ h]

theorem buffer_append_samples :
    ∀ (cur : List ((String × String) × ℚ))
      (buf : List ((String × String) × List ℚ)) (k : String × String),
      (cur.map Prod.fst).Nodup →
      buf_samples (buffer_append buf cur) k =
        buf_samples buf k ++ (alist_get cur k).toList := by
  intro cur
  induction cur with
  | nil => intro buf k h; simp [buffer_append, alist_get]
  | cons e rest ih =>
      intro buf k h
      rcases e with ⟨k2, p⟩
      simp only [List.map_cons, List.nodup_cons] at h
      simp only [buffer_append]
      by_cases hk : k2 = k
      · subst hk
        have hrest : alist_get rest k2 = none :=
          (alist_get_none_not_mem rest k2).mpr h.1
        rw [ih _ _ h.2, hrest, alist_get]
        simp only [if_pos rfl, Option.toList]
        rw [buf_samples, alist_get_set_self]
        simp [buf_samples]
      · have : alist_get ((k2, p) :: rest) k = alist_get rest k := by
          simp [alist_get, hk]
        rw [ih _ _ h.2, this, buf_samples_append_other _ _ _ _ hk]

/-! ### C8 — per-snapshot lowest-BIN sample -/

/-- C8: on each accepted snapshot, the buffer-insertion stage of
`update_active_buffers` extends each `(item_id, rarity)` key's sample
list by exactly the minimum unit price (`price / stack_size`) over the
listings of the snapshot that are flagged buy-now and whose elapsed
listed duration at the snapshot timestamp is at least one minute — and
by nothing at all when the snapshot holds no such qualifying listing for
the key. -/
theorem lbin_append_min (st : AHState) (lu : ℤ)
    (acts : List ActiveAuction) (k : String × String) :
    buf_samples (buffer_append st.lbin_buffer
        (active_scan lu (st.active_occurrences, []) acts).2) k =
      buf_samples st.lbin_buffer k ++ (lbin_min lu acts k).toList := by
  have hnd := active_scan_keys_nodup lu acts st.active_occurrences []
    (by simp)
  rw [buffer_append_samples _ _ _ hnd, active_scan_get]
  simp [alist_get, opt_min]

/-! ### Run lemmas for C7 -/

theorem scan_snd_eq_current (t : ℤ) (acts : List ActiveAuction)
    (occ : List ((String × String) × ℕ)) :
    (active_scan t (occ, []) acts).2 = current_lbin t acts :=
  active_scan_snd t acts occ [] []

theorem accept_snapshot_flush (th : ℕ) (st : AHState) (t : ℤ)
    (acts : List ActiveAuction) (h : st.aa_cache_count + 1 = th) :
    accept_snapshot th st t acts =
      { st with
        active_auctions := acts, aa_last_update := some t,
        aa_cache_count := 0, active_occurrences := ([]),
        lbin_buffer := ([]),
        flushes := st.flushes ++ [save_lbin_rows
          (buffer_append st.lbin_buffer (current_lbin t acts))] } := by
  simp only [accept_snapshot, update_active_buffers]
  rw [if_pos h, scan_snd_eq_current]

theorem accept_snapshot_no_flush (th : ℕ) (st : AHState) (t : ℤ)
    (acts : List ActiveAuction) (h : ¬ st.aa_cache_count + 1 = th) :
    accept_snapshot th st t acts =
      { st with
        active_auctions := acts, aa_last_update := some t,
        aa_cache_count := st.aa_cache_count + 1,
        active_occurrences :=
          (active_scan t (st.active_occurrences, []) acts).1,
        lbin_buffer :=
          buffer_append st.lbin_buffer (current_lbin t acts) } := by
  simp only [accept_snapshot, update_active_buffers]
  rw [if_neg h, scan_snd_eq_current]

theorem run_snapshots_flush (th : ℕ) :
    ∀ (snaps : List (ℤ × List ActiveAuction)) (st : AHState),
      ¬ snaps = [] → st.aa_cache_count + snaps.length = th →
      st.flushes = [] →
      (run_snapshots th st snaps).flushes =
        [save_lbin_rows (snaps.foldl
          (fun b p => buffer_append b (current_lbin p.1 p.2))
          st.lbin_buffer)] ∧
      (run_snapshots th st snaps).lbin_buffer = [] ∧
      (run_snapshots th st snaps).aa_cache_count = 0 ∧
      (run_snapshots th st snaps).active_occurrences = [] := by
  intro snaps
  induction snaps with
  | nil => intro st h _ _; exact absurd rfl h
  | cons p rest ih =>
      intro st hne hlen hfl
      by_cases hrest : rest = []
      · subst hrest
        have hth : st.aa_cache_count + 1 = th := by
          simpa using hlen
        simp only [run_snapshots, List.foldl_cons, List.foldl_nil]
        rw [accept_snapshot_flush th st p.1 p.2 hth]
        simp [hfl]
      · have hlen2 : 0 < rest.length := List.length_pos.mpr hrest
        have hth : ¬ st.aa_cache_count + 1 = th := by
          simp only [List.length_cons] at hlen
          omega
        simp only [run_snapshots, List.foldl_cons]
        rw [accept_snapshot_no_flush th st p.1 p.2 hth]
        have := ih { st with
            active_auctions := p.2, aa_last_update := some p.1,
            aa_cache_count := st.aa_cache_count + 1,
            active_occurrences :=
              (active_scan p.1 (st.active_occurrences, []) p.2).1,
            lbin_buffer :=
              buffer_append st.lbin_buffer (current_lbin p.1 p.2) }
          hrest (by
            simp only [List.length_cons] at hlen
            show st.aa_cache_count + 1 + rest.length = th
            omega)
          (by simpa using hfl)
        simpa [run_snapshots] using this

theorem total_samples_cons (e : (String × String) × List ℚ)
    (m : List ((String × String) × List ℚ)) :
    total_samples (e :: m) = e.2.length + total_samples m := by
  simp [total_samples]

theorem total_samples_append_one
    (buf : List ((String × String) × List ℚ)) (k : String × String)
    (p : ℚ) :
    total_samples (alist_set buf k ((alist_get buf k).getD [] ++ [p])) =
      total_samples buf + 1 := by
  induction buf with
  | nil => simp [alist_set, alist_get, total_samples]
  | cons e t ih =>
      rcases e with ⟨k2, l⟩
      by_cases hk : k2 = k
      · simp only [alist_get, if_pos hk, alist_set, Option.getD_some]
        rw [total_samples_cons, total_samples_cons]
        simp
        omega
      · simp only [alist_get, if_neg hk, alist_set]
        rw [total_samples_cons, total_samples_cons, ih]
        omega

theorem total_samples_buffer_append :
    ∀ (cur : List ((String × String) × ℚ))
      (buf : List ((String × String) × List ℚ)),
      total_samples (buffer_append buf cur) =
        total_samples buf + cur.length := by
  intro cur
  induction cur with
  | nil => intro buf; simp [buffer_append]
  | cons e rest ih =>
      intro buf
      rcases e with ⟨k, p⟩
      simp only [buffer_append]
      rw [ih, total_samples_append_one]
      simp
      omega

theorem total_samples_foldl (snaps : List (ℤ × List ActiveAuction)) :
    ∀ (buf : List ((String × String) × List ℚ)),
      total_samples (snaps.foldl
        (fun b p => buffer_append b (current_lbin p.1 p.2)) buf) =
        total_samples buf +
          (snaps.map (fun p => (current_lbin p.1 p.2).length)).sum := by
  induction snaps with
  | nil => intro buf; simp
  | cons p rest ih =>
      intro buf
      simp only [List.foldl_cons, List.map_cons, List.sum_cons]
      rw [ih, total_samples_buffer_append]
      omega

/-! ### C7 — buffer flush cadence -/

/-- C7 counterexample: the flush `update_active_buffers` emits when the
counter reaches the threshold carries, per key, only the arithmetic mean
of the buffered samples — the `lbin_history` row schema
`(timestamp, item_id, rarity, price)` has no sample-count column — so
rendered side by side, the emitted rows differ from the claim's
"(arithmetic mean, sample count)" payload already for a single-snapshot
run with one qualifying listing. -/
theorem flush_rows_lack_counts :
    (run_snapshots 1 init_ah [(minute_td, [fix_auction])]).flushes =
      [save_lbin_rows [(("A", "RARE"), [unit_price fix_auction])]] ∧
    ¬ (code_rows_rendered [(("A", "RARE"), [unit_price fix_auction])] =
        spec_reduced_rows [(("A", "RARE"), [unit_price fix_auction])]) := by
  constructor
  · rfl
  · intro hEq
    simp [code_rows_rendered, spec_reduced_rows, save_lbin_rows] at hEq

/-- C7 amended: a run of exactly `threshold` accepted snapshots from the
initial state emits exactly one flush, whose rows are the per-key
arithmetic means of the accumulated buffer (no per-key sample count is
part of the payload); immediately afterwards the buffer and occurrence
map are empty and the counter is zero; and the number of samples
accumulated at flush time equals the number of qualifying observations —
one per snapshot and per key with a qualifying lowest BIN. -/
theorem flush_cadence (threshold : ℕ)
    (snaps : List (ℤ × List ActiveAuction)) (h1 : 1 ≤ threshold)
    (h2 : snaps.length = threshold) :
    (run_snapshots threshold init_ah snaps).flushes =
      [save_lbin_rows (snaps.foldl
        (fun b p => buffer_append b (current_lbin p.1 p.2)) [])] ∧
    (run_snapshots threshold init_ah snaps).lbin_buffer = [] ∧
    (run_snapshots threshold init_ah snaps).aa_cache_count = 0 ∧
    (run_snapshots threshold init_ah snaps).active_occurrences = [] ∧
    total_samples (snaps.foldl
        (fun b p => buffer_append b (current_lbin p.1 p.2)) []) =
      (snaps.map (fun p => (current_lbin p.1 p.2).length)).sum := by
  have hne : ¬ snaps = [] := by
    intro hnil
    rw [hnil] at h2
    simp at h2
    omega
  have hrun := run_snapshots_flush threshold snaps init_ah hne
    (by simpa [init_ah] using h2) rfl
  refine ⟨hrun.1, hrun.2.1, hrun.2.2.1, hrun.2.2.2, ?_⟩
  rw [total_samples_foldl]
  simp [total_samples]

/-- C7 witness: the cadence statement at threshold 1 with one (empty)
snapshot. -/
theorem flush_cadence_witness :
    (run_snapshots 1 init_ah [(0, [])]).flushes =
      [save_lbin_rows ([(0, ([] : List ActiveAuction))].foldl
        (fun b p => buffer_append b (current_lbin p.1 p.2)) [])] ∧
    (run_snapshots 1 init_ah [(0, [])]).lbin_buffer = [] ∧
    (run_snapshots 1 init_ah [(0, [])]).aa_cache_count = 0 ∧
    (run_snapshots 1 init_ah [(0, [])]).active_occurrences = [] ∧
    total_samples ([(0, ([] : List ActiveAuction))].foldl
        (fun b p => buffer_append b (current_lbin p.1 p.2)) []) =
      ([(0, ([] : List ActiveAuction))].map
        (fun p => (current_lbin p.1 p.2).length)).sum :=
  flush_cadence 1 [(0, [])] (by decide) (by decide)

/-! ### Rate-limiter lemmas for C2 -/

theorem getD_drop_int (l : List ℤ) (n i : ℕ) :
    (l.drop n).getD i 0 = l.getD (n + i) 0 := by
  simp [List.getD_eq_getElem?_getD, List.getElem?_drop]

theorem getD_concat_self (l : List ℤ) (x : ℤ) :
    (l ++ [x]).getD l.length 0 = x := by
  rw [List.getD_append_right l [x] 0 l.length (le_refl _)]
  simp

theorem dropWhile_eq_drop_aux (p : ℤ → Bool) :
    ∀ l : List ℤ, ∃ m, m ≤ l.length ∧ l.dropWhile p = l.drop m ∧
      ∀ i < m, p (l.getD i 0) = true := by
  intro l
  induction l with
  | nil =>
      refine ⟨0, by simp, by simp, ?_⟩
      intro i hi
      omega
  | cons c t ih =>
      by_cases hc : p c = true
      · obtain ⟨m, hm, hdw, hp⟩ := ih
        refine ⟨m + 1, by simpa using hm, ?_, ?_⟩
        · simpa [List.dropWhile, hc] using hdw
        · intro i hi
          rcases i with _ | j
          · simpa using hc
          · have := hp j (by omega)
            simpa using this
      · refine ⟨0, by simp, by simp [List.dropWhile, hc], ?_⟩
        intro i hi
        omega

theorem dropWhile_head_false (p : ℤ → Bool) :
    ∀ l : List ℤ, ¬ l.dropWhile p = [] →
      p ((l.dropWhile p).getD 0 0) = false := by
  intro l
  induction l with
  | nil => intro h; simp at h
  | cons c t ih =>
      intro h
      by_cases hc : p c = true
      · rw [List.dropWhile] at h ⊢
        rw [hc] at h ⊢
        exact ih h
      · rw [List.dropWhile] at h ⊢
        have hc2 : p c = false := by
          rcases hb : p c
          · rfl
          · exact absurd hb hc
        rw [hc2] at h ⊢
        simpa using hc2

theorem use_key_invariant (limit : ℕ) (hlim : 1 ≤ limit) :
    ∀ (nows : List ℤ) (hist : List ℤ) (kd : ℕ),
      List.Pairwise (· ≤ ·) nows →
      (∀ n ∈ nows, ∀ i < kd, hist.getD i 0 < n - minute_td) →
      (∀ j < hist.length, (∀ n ∈ nows, hist.getD j 0 ≤ n) ∨
        (limit ≤ j ∧
          hist.getD j 0 = hist.getD (j - limit) 0 + minute_td)) →
      kd ≤ hist.length →
      mono_le hist →
      spaced limit hist →
      mono_le (hist ++ use_key_history limit (hist.drop kd) nows) ∧
      spaced limit (hist ++ use_key_history limit (hist.drop kd) nows) := by
  intro nows
  induction nows with
  | nil =>
      intro hist kd _ _ _ _ hm hs
      constructor
      · simpa [use_key_history] using hm
      · simpa [use_key_history] using hs
  | cons now rest ih =>
      intro hist kd hpw hdrop hI3 hkd hm hs
      have hnow : ∀ n ∈ rest, now ≤ n := (List.pairwise_cons.mp hpw).1
      have hpw2 : List.Pairwise (· ≤ ·) rest :=
        (List.pairwise_cons.mp hpw).2
      obtain ⟨m, hmle, hdw, hpm⟩ := dropWhile_eq_drop_aux
        (fun t => decide (now - t > minute_td)) (hist.drop kd)
      have hcalls1 : (hist.drop kd).dropWhile
          (fun t => decide (now - t > minute_td)) = hist.drop (kd + m) := by
        rw [hdw, List.drop_drop]
      have hkd2le : kd + m ≤ hist.length := by
        rw [List.length_drop] at hmle
        omega
      have hdrop2 : ∀ i < kd + m, hist.getD i 0 < now - minute_td := by
        intro i hi
        by_cases hik : i < kd
        · exact hdrop now (List.mem_cons_self ..) i hik
        · have h1 := hpm (i - kd) (by omega)
          rw [getD_drop_int] at h1
          have h2 : kd + (i - kd) = i := by omega
          rw [h2] at h1
          have := of_decide_eq_true h1
          omega
      -- the scheduled timestamp of this step
      set len := hist.length with hlen
      set sched := if (hist.drop (kd + m)).length < limit then now
        else (hist.drop (kd + m)).getD
          ((hist.drop (kd + m)).length - limit) 0 + minute_td with hsched
      -- the step of the history
      have hstep : use_key_history limit (hist.drop kd) (now :: rest) =
          sched :: use_key_history limit
            ((hist ++ [sched]).drop (kd + m)) rest := by
        rw [use_key_history]
        have h1 : use_key_step limit now (hist.drop kd) =
            (sched, hist.drop (kd + m) ++ [sched]) := by
          rw [use_key_step]
          simp only [hcalls1]
        rw [h1, List.drop_append_of_le_length hkd2le]
      -- the appended-history bound: every old entry is at most `sched`
      have hItem : ∀ j < len, (∀ n ∈ now :: rest, hist.getD j 0 ≤ n) ∨
          (limit ≤ j ∧
            hist.getD j 0 = hist.getD (j - limit) 0 + minute_td) := hI3
      have hbound : ∀ j < len, hist.getD j 0 ≤ sched := by
        intro j hj
        rw [hsched]
        split
        · -- branch A: sched = now
          next hA =>
          rw [List.length_drop] at hA
          rcases hItem j hj with hle | ⟨hjlim, heq⟩
          · exact hle now (List.mem_cons_self ..)
          · have hjd : j - limit < kd + m := by omega
            have := hdrop2 (j - limit) hjd
            rw [heq]
            unfold minute_td at this ⊢
            omega
        · -- branch B: sched = hist[len - limit] + minute
          next hB =>
          rw [List.length_drop] at hB
          rw [getD_drop_int] at *
          have hidx : kd + m + (len - (kd + m) - limit) = len - limit := by
            omega
          rw [List.length_drop, hidx]
          -- the head of the kept deque is at most one minute old
          have hne : ¬ (hist.drop kd).dropWhile
              (fun t => decide (now - t > minute_td)) = [] := by
            rw [hcalls1]
            intro hnil
            have := congrArg List.length hnil
            rw [List.length_drop] at this
            simp at this
            omega
          have hhead := dropWhile_head_false _ _ hne
          rw [hcalls1, getD_drop_int, Nat.add_zero] at hhead
          have hheadv : ¬ now - hist.getD (kd + m) 0 > minute_td := by
            intro hgt
            rw [decide_eq_true hgt] at hhead
            cases hhead
          have hmono1 : hist.getD (kd + m) 0 ≤ hist.getD (len - limit) 0 :=
            hm (kd + m) (len - limit) (by omega) (by omega)
          rcases hItem j hj with hle | ⟨hjlim, heq⟩
          · have := hle now (List.mem_cons_self ..)
            omega
          · have hmono2 : hist.getD (j - limit) 0 ≤
                hist.getD (len - limit) 0 :=
              hm (j - limit) (len - limit) (by omega) (by omega)
            omega
      -- facts about the appended history
      have hlen2 : (hist ++ [sched]).length = len + 1 := by
        simp
      have hget_old : ∀ j < len, (hist ++ [sched]).getD j 0 =
          hist.getD j 0 := by
        intro j hj
        exact List.getD_append hist [sched] 0 j hj
      have hget_new : (hist ++ [sched]).getD len 0 = sched :=
        getD_concat_self hist sched
      -- monotonicity of the appended history
      have hm2 : mono_le (hist ++ [sched]) := by
        intro i j hij hj
        rw [hlen2] at hj
        by_cases hjlen : j < len
        · rw [hget_old i (by omega), hget_old j hjlen]
          exact hm i j hij hjlen
        · have hjeq : j = len := by omega
          subst hjeq
          rw [hget_new]
          by_cases hilen : i < len
          · rw [hget_old i hilen]
            exact hbound i hilen
          · have : i = len := by omega
            subst this
            rw [hget_new]
      -- spacing of the appended history
      have hs2 : spaced limit (hist ++ [sched]) := by
        intro i hi
        rw [hlen2] at hi
        by_cases hilen : i + limit < len
        · rw [hget_old i (by omega), hget_old (i + limit) hilen]
          exact hs i hilen
        · have hieq : i + limit = len := by omega
          rw [hieq, hget_new, hget_old i (by omega)]
          rw [hsched]
          split
          · next hA =>
            rw [List.length_drop] at hA
            have : i < kd + m := by omega
            have := hdrop2 i this
            unfold minute_td at this ⊢
            omega
          · next hB =>
            rw [List.length_drop] at hB
            rw [List.length_drop, getD_drop_int]
            have hidx : kd + m + (len - (kd + m) - limit) = i := by omega
            rw [hidx]
      -- the invariant conditions for the recursive call
      have hdrop3 : ∀ n ∈ rest, ∀ i < kd + m,
          (hist ++ [sched]).getD i 0 < n - minute_td := by
        intro n hn i hi
        rw [hget_old i (by omega)]
        have h1 := hdrop2 i hi
        have h2 := hnow n hn
        omega
      have hI32 : ∀ j < (hist ++ [sched]).length,
          (∀ n ∈ rest, (hist ++ [sched]).getD j 0 ≤ n) ∨
          (limit ≤ j ∧ (hist ++ [sched]).getD j 0 =
            (hist ++ [sched]).getD (j - limit) 0 + minute_td) := by
        intro j hj
        rw [hlen2] at hj
        by_cases hjlen : j < len
        · rcases hItem j hjlen with hle | ⟨hjlim, heq⟩
          · left
            intro n hn
            rw [hget_old j hjlen]
            exact hle n (List.mem_cons_of_mem now hn)
          · right
            refine ⟨hjlim, ?_⟩
            rw [hget_old j hjlen, hget_old (j - limit) (by omega)]
            exact heq
        · have hjeq : j = len := by omega
          subst hjeq
          rw [hget_new]
          rw [hsched]
          split
          · next hA =>
            left
            intro n hn
            exact hnow n hn
          · next hB =>
            right
            rw [List.length_drop] at hB
            refine ⟨by omega, ?_⟩
            rw [List.length_drop, getD_drop_int]
            have hidx : kd + m + (len - (kd + m) - limit) = len - limit := by
              omega
            rw [hidx, List.getD_append _ _ _ _ (by omega)]
      -- recurse
      have hrec := ih (hist ++ [sched]) (kd + m) hpw2 hdrop3 hI32
        (by rw [hlen2]; omega) hm2 hs2
      rw [hstep]
      have hassoc : hist ++ sched :: use_key_history limit
          ((hist ++ [sched]).drop (kd + m)) rest =
          (hist ++ [sched]) ++ use_key_history limit
            ((hist ++ [sched]).drop (kd + m)) rest := by
        rw [List.append_assoc]
        rfl
      rw [hassoc]
      exact hrec

theorem window_of_mono_spaced (limit : ℕ) :
    ∀ l : List ℤ, mono_le l → spaced limit l → ∀ a : ℤ,
      window_count a l ≤ limit := by
  intro l
  induction l with
  | nil => intro _ _ a; simp [window_count]
  | cons c t ih =>
      intro hm hsp a
      by_cases hc1 : a ≤ c
      · by_cases hc2 : c < a + minute_td
        · -- the head lies in the window: everything from position `limit`
          -- onward is at least one minute later, hence outside it
          have hsplit : window_count a (c :: t) =
              ((c :: t).take limit).countP
                (fun x => decide (a ≤ x ∧ x < a + minute_td)) +
              ((c :: t).drop limit).countP
                (fun x => decide (a ≤ x ∧ x < a + minute_td)) := by
            rw [window_count, ← List.countP_append, List.take_append_drop]
          have hzero : ((c :: t).drop limit).countP
              (fun x => decide (a ≤ x ∧ x < a + minute_td)) = 0 := by
            rw [List.countP_eq_zero]
            intro x hx
            rw [List.mem_iff_getElem] at hx
            obtain ⟨i, hilt, hic⟩ := hx
            have hlenlt : limit + i < (c :: t).length := by
              rw [List.length_drop] at hilt
              omega
            have hx2 : x = (c :: t).getD (limit + i) 0 := by
              rw [← hic, ← getD_drop_int, List.getD_eq_getElem]
            have hsp0 := hsp 0 (by omega)
            rw [Nat.zero_add] at hsp0
            have hmono := hm limit (limit + i) (by omega) hlenlt
            have hc0 : (c :: t).getD 0 0 = c := rfl
            rw [hc0] at hsp0
            subst hx2
            simp only [decide_eq_true_eq, not_and, not_lt]
            intro _
            omega
          rw [hsplit, hzero, Nat.add_zero]
          calc ((c :: t).take limit).countP _ ≤
              ((c :: t).take limit).length := List.countP_le_length _
            _ ≤ limit := by rw [List.length_take]; omega
        · -- the head is already at or past the window's end, and the
          -- list is monotone, so nothing is in the window
          have hzero : window_count a (c :: t) = 0 := by
            rw [window_count, List.countP_eq_zero]
            intro x hx
            rw [List.mem_iff_getElem] at hx
            obtain ⟨i, hilt, hic⟩ := hx
            have hx2 : x = (c :: t).getD i 0 := by
              rw [← hic, List.getD_eq_getElem]
            have hmono := hm 0 i (by omega) hilt
            have hc0 : (c :: t).getD 0 0 = c := rfl
            rw [hc0] at hmono
            subst hx2
            simp only [decide_eq_true_eq, not_and, not_lt]
            intro _
            omega
          rw [hzero]
          exact Nat.zero_le limit
      · -- the head precedes the window; recurse on the tail
        have hm2 : mono_le t := by
          intro i j hij hj
          have := hm (i + 1) (j + 1) (by omega)
            (by simpa using Nat.succ_lt_succ hj)
          simpa using this
        have hsp2 : spaced limit t := by
          intro i hi
          have := hsp (i + 1) (by simp only [List.length_cons]; omega)
          simpa [Nat.add_right_comm] using this
        have hhead : window_count a (c :: t) = window_count a t := by
          simp [window_count, List.countP_cons, hc1]
        rw [hhead]
        exact ih hm2 hsp2 a

/-! ### C2 — the rate-limiter window bound -/

/-- C2: for every per-minute quota `limit ≥ 1` and every sequence of
calls to the `use_key`-decorated request (`datetime.now()` is
non-decreasing across calls), no one-minute sliding window `[a, a + 60s)`
contains more than `limit` of the scheduled timestamps recorded by the
run. -/
theorem use_key_window_bound (limit : ℕ) (hlim : 1 ≤ limit)
    (nows : List ℤ) (hpw : List.Pairwise (· ≤ ·) nows) (a : ℤ) :
    window_count a (use_key_history limit [] nows) ≤ limit := by
  have hinv := use_key_invariant limit hlim nows [] 0 hpw
    (by intro n _ i hi; omega)
    (by intro j hj; simp at hj)
    (by simp)
    (by intro i j _ hj; simp at hj)
    (by intro i hi; simp at hi)
  simp only [List.drop_nil, List.nil_append] at hinv
  exact window_of_mono_spaced limit _ hinv.1 hinv.2 a

/-- C2 witness: quota 1, three immediate calls — the recorded schedule is
`[0, 60 s, 120 s]` and the window starting at 0 holds one timestamp. -/
theorem use_key_window_bound_witness :
    window_count 0 (use_key_history 1 [] [0, 0, 0]) ≤ 1 :=
  use_key_window_bound 1 (by decide) [0, 0, 0] (by decide) 0
